import Mathlib

/-!
Verification development for the marketpalace subscription contract.

The Rust sources are shallowly embedded: `u64`/`u16` amounts become `Nat`
(with checked variants where Rust would panic), `i64` signed exchange deltas
become `Int`, fallible entry points return `Except String`, and the
contract's singleton storage becomes an explicit `Storage` record threaded
through the entry-point functions.  The repository snapshot mixes two
contract generations: `contract.rs`, `msg.rs` and `migrate.rs` belong to the
current generation (whose `state.rs` declaring `State`,
`AssetExchangeAuthorization` and the storage helpers is not in the snapshot),
while `state.rs` and `instantiate.rs` belong to the earlier,
status-bearing generation; the latter are embedded in the `V1` namespace.
-/

/-- Bech32 addresses (`cosmwasm_std::Addr`) are embedded as strings. -/
abbrev Addr := String

/-- Source `msg.rs` `ExchangeDate`: either a due date or an availability date. -/
inductive ExchangeDate
  | due (v : Nat)
  | available (v : Nat)
deriving DecidableEq, Repr

/-- Source `msg.rs` `AssetExchange`: one signed-delta exchange line.  All fields are
optional; `investment`, `commitment_in_shares` and `capital` are signed
(`i64` in the source, embedded as `Int`). -/
structure AssetExchange where
  investment : Option Int
  commitment_in_shares : Option Int
  capital_denom : Option String
  capital : Option Int
  date : Option ExchangeDate
deriving DecidableEq, Repr

/-- Modelled from the spec: the current-generation `state.rs` declaring
`AssetExchangeAuthorization` is missing from the snapshot; its fields are
exactly those constructed in `contract.rs` (`exchanges`, `to`, `memo`) and,
per spec §3, its identity/equality is structural (full content match),
embedded here by the derived `DecidableEq`. -/
structure AssetExchangeAuthorization where
  exchanges : List AssetExchange
  toAddr : Option Addr
  memo : Option String
deriving DecidableEq, Repr

/-- Modelled from the spec: the current-generation `state.rs` declaring
`State` is missing from the snapshot; the fields are those read in
`contract.rs` (`admin`, `lp`, `raise`, `commitment_denom`,
`investment_denom`, `like_capital_denoms`, `required_capital_attribute`)
plus the `capital_per_share` conversion ratio of spec §3. -/
structure State where
  admin : Addr
  lp : Addr
  raise : Addr
  commitment_denom : String
  investment_denom : String
  like_capital_denoms : List String
  capital_per_share : Nat
  required_capital_attribute : Option String
deriving DecidableEq, Repr

/-- The `cosmwasm_std::Coin` type restricted to what the contract builds:
a `Nat` amount and a denom identifier (`coin(amount, denom)`). -/
structure Coin where
  amount : Nat
  denom : String
deriving DecidableEq, Repr

/-- Modelled from the spec: the outbound protocol message
`CompleteAssetExchange { exchanges, to, memo }` sent to the fund
counterparty (spec §6); the snapshot's `raise_msg.rs` is the older
generation and lacks this variant, but `contract.rs` serializes exactly
these three fields. -/
structure RaiseCompleteMsg where
  exchanges : List AssetExchange
  toAddr : Option Addr
  memo : Option String
deriving DecidableEq, Repr

/-- The outbound messages the contract can emit: a plain bank send, a
restricted-instrument (marker) transfer `transfer_marker_coins(amount,
denom, to, from)`, or a wasm-execute toward the raise contract with
attached funds. -/
inductive CosmosMsg
  | bankSend (to_address : String) (amount : List Coin)
  | markerTransfer (c : Coin) (toAddr : Addr) (fromAddr : Addr)
  | wasmExecute (contract_addr : Addr) (msg : RaiseCompleteMsg) (funds : List Coin)
deriving DecidableEq, Repr

/-- The contract's persistent storage: the `State` singleton plus the
separately stored pending-authorization list (`may_load`, hence
`Option`). -/
structure Storage where
  state : State
  authorizations : Option (List AssetExchangeAuthorization)
deriving DecidableEq, Repr

/-- Result of a successful `execute` call: the storage as saved plus the
outbound messages of the `Response` in emission order. -/
structure ExecResult where
  storage : Storage
  msgs : List CosmosMsg
deriving DecidableEq, Repr

/-- Source `msg.rs` `HandleMsg`: the five executable commands. -/
inductive HandleMsg
  | recover (lp : Addr)
  | authorizeAssetExchange (exchanges : List AssetExchange) (toAddr : Option Addr)
      (memo : Option String)
  | cancelAssetExchangeAuthorization (exchanges : List AssetExchange) (toAddr : Option Addr)
      (memo : Option String)
  | completeAssetExchange (exchanges : List AssetExchange) (toAddr : Option Addr)
      (memo : Option String)
  | issueWithdrawal (toAddr : Addr) (amount : Nat) (capital_denom : Option String)
deriving DecidableEq, Repr

/-- Source `contract.rs` `remove_asset_exchange_authorization`: scan the pending
list for the first entry structurally equal to `(exchanges, to, memo)`;
remove it when found (saving the shortened list), otherwise error exactly
when `authorization_required`, leaving storage untouched. -/
def remove_asset_exchange_authorization
    (auths : Option (List AssetExchangeAuthorization))
    (exchanges : List AssetExchange) (toAddr : Option Addr) (memo : Option String)
    (authorization_required : Bool) :
    Except String (Option (List AssetExchangeAuthorization)) :=
  match auths with
  | some authorizations =>
    let authorization : AssetExchangeAuthorization :=
      { exchanges := exchanges, toAddr := toAddr, memo := memo }
    match authorizations.findIdx? (fun e => authorization = e) with
    | some index => .ok (some (authorizations.eraseIdx index))
    | none =>
      if authorization_required then
        .error "no previously authorized asset exchange matched"
      else
        .ok (some authorizations)
  | none =>
    if authorization_required then
      .error "no previously authorized asset exchange matched"
    else
      .ok none

/-- The `HashMap<String, i64>` accumulator update
`*acc.entry(denom).or_insert(0) += capital_value`, embedded as an
association list keyed by denom (insertion order; key update in place). -/
def upsert (acc : List (String × Int)) (denom : String) (v : Int) :
    List (String × Int) :=
  match acc with
  | [] => [(denom, v)]
  | (d, x) :: rest =>
    if d = denom then (d, x + v) :: rest else (d, x) :: upsert rest denom v

/-- Source `contract.rs` `CompleteAssetExchange` and its `try_fold` building
`total_capital_per_denom`: for every line with a `capital` value, resolve
its denom (explicit, or the single accepted denom when exactly one exists,
else the `no capital denom` error) and add the value into the per-denom
sum. -/
def total_capital_per_denom (like : List String) :
    List AssetExchange → List (String × Int) → Except String (List (String × Int))
  | [], acc => .ok acc
  | e :: rest, acc =>
    match e.capital with
    | none => total_capital_per_denom like rest acc
    | some v =>
      match e.capital_denom with
      | some d => total_capital_per_denom like rest (upsert acc d v)
      | none =>
        match like with
        | [d] => total_capital_per_denom like rest (upsert acc d v)
        | _ => .error "no capital denom"

/-- Source `contract.rs` `HandleMsg::Recover`. -/
def executeRecover (storage : Storage) (sender : Addr) (lp : Addr) :
    Except String ExecResult :=
  let state := storage.state
  if sender ≠ state.admin then
    .error "only admin can recover subscription"
  else
    .ok { storage := { storage with state := { state with lp := lp } }, msgs := [] }

/-- The per-line validation loop of `HandleMsg::AuthorizeAssetExchange`:
for each line carrying capital, an explicit denom must be in
`like_capital_denoms`, and an omitted denom is only allowed when at most
one accepted denom exists.  The first offending line's error is
returned. -/
def validateAuthorizeExchanges (like : List String) :
    List AssetExchange → Except String Unit
  | [] => .ok ()
  | e :: rest =>
    if e.capital.isSome then
      match e.capital_denom with
      | some denom_value =>
        if denom_value ∉ like then .error "unsupported capital denom"
        else validateAuthorizeExchanges like rest
      | none =>
        if like.length > 1 then .error "specified capital denom required"
        else validateAuthorizeExchanges like rest
    else
      validateAuthorizeExchanges like rest

/-- Source `contract.rs` `HandleMsg::AuthorizeAssetExchange`: lp only; validate
each capital-bearing line's denom; append the authorization to the pending
list (creating it when absent). -/
def executeAuthorizeAssetExchange (storage : Storage) (sender : Addr)
    (exchanges : List AssetExchange) (toAddr : Option Addr) (memo : Option String) :
    Except String ExecResult :=
  let state := storage.state
  if sender ≠ state.lp then
    .error "only the lp can authorize asset exchanges"
  else
    match validateAuthorizeExchanges state.like_capital_denoms exchanges with
    | .error e => .error e
    | .ok _ =>
      let authorizations := storage.authorizations.getD []
      let authorizations :=
        authorizations ++ [{ exchanges := exchanges, toAddr := toAddr, memo := memo }]
      .ok { storage := { storage with authorizations := some authorizations },
            msgs := [] }

/-- Source `contract.rs` `HandleMsg::CancelAssetExchangeAuthorization`: lp only;
removal of the matching authorization is required (hard error when no
structural match exists). -/
def executeCancelAssetExchangeAuthorization (storage : Storage) (sender : Addr)
    (exchanges : List AssetExchange) (toAddr : Option Addr) (memo : Option String) :
    Except String ExecResult :=
  let state := storage.state
  if sender ≠ state.lp then
    .error "only the lp can cancel asset exchange authorization"
  else
    match remove_asset_exchange_authorization storage.authorizations
      exchanges toAddr memo true with
    | .error e => .error e
    | .ok auths =>
      .ok { storage := { storage with authorizations := auths }, msgs := [] }

/-- Lexicographic comparison of character lists by code point, the order
Rust's `String: Ord` induces on (valid UTF-8) strings. -/
def charListLe : List Char → List Char → Bool
  | [], _ => true
  | _ :: _, [] => false
  | a :: as, b :: bs =>
    if a.val < b.val then true
    else if b.val < a.val then false
    else charListLe as bs

/-- The denom order used by `sort_by_key`. -/
def strLe (a b : String) : Bool := charListLe a.data b.data

/-- Stable insertion of a coin behind every already-placed coin whose denom
is not greater. -/
def insertCoin (c : Coin) : List Coin → List Coin
  | [] => [c]
  | d :: t => if strLe d.denom c.denom then d :: insertCoin c t else c :: d :: t

/-- Sorting of the attached funds: `funds.sort_by_key(|coin| coin.denom)`
(a stable sort by denom identifier, embedded as insertion sort). -/
def sortCoins (funds : List Coin) : List Coin :=
  funds.foldl (fun acc c => insertCoin c acc) []

/-- The per-denom step of `CompleteAssetExchange`'s second `try_fold`: a
negative capital sum becomes either an attached coin (no required capital
attribute) or a marker transfer of the absolute sum to the raise; a zero or
positive sum contributes nothing. -/
def capStep (required_capital_attribute : Option String) (raise env_contract : Addr) :
    List Coin × List CosmosMsg → String × Int → List Coin × List CosmosMsg :=
  fun (fs, ms) (capital_denom, capital_sum) =>
    if capital_sum < 0 then
      match required_capital_attribute with
      | none =>
        (fs ++ [{ amount := capital_sum.natAbs, denom := capital_denom }], ms)
      | some _ =>
        (fs, ms ++ [CosmosMsg.markerTransfer
          { amount := capital_sum.natAbs, denom := capital_denom }
          raise env_contract])
    else (fs, ms)

/-- The outbound messages of a successful `CompleteAssetExchange` given the
per-denom capital sums `cap`: the marker transfers of the restricted path
(in per-denom order) followed by the wasm-execute toward the raise carrying
the batch and the denom-sorted attached funds. -/
def completeMsgs (state : State) (env_contract : Addr)
    (exchanges : List AssetExchange) (toAddr : Option Addr) (memo : Option String)
    (cap : List (String × Int)) : List CosmosMsg :=
  let total_investment : Int := (exchanges.filterMap (·.investment)).sum
  let funds : List Coin :=
    if total_investment < 0 then
      [{ amount := total_investment.natAbs, denom := state.investment_denom }]
    else []
  let total_commitment : Int := (exchanges.filterMap (·.commitment_in_shares)).sum
  let funds : List Coin :=
    funds ++
      (if total_commitment < 0 then
        [{ amount := total_commitment.natAbs, denom := state.commitment_denom }]
      else [])
  let (funds, markers) :=
    cap.foldl (capStep state.required_capital_attribute state.raise env_contract)
      (funds, [])
  markers ++
    [CosmosMsg.wasmExecute state.raise
      { exchanges := exchanges, toAddr := toAddr, memo := memo } (sortCoins funds)]

/-- Source `contract.rs` `HandleMsg::CompleteAssetExchange`: lp or admin; consume
the matching pending authorization (required only for the admin); sum the
investment and commitment-in-shares deltas and the per-denom capital
deltas; attach a coin for every negative sum — except that with a
`required_capital_attribute` configured, each negative capital sum is
emitted as a marker transfer to the raise instead of attached funds (no
attribute query happens here); finally emit the wasm-execute toward the
raise carrying the batch and the denom-sorted funds. -/
def executeCompleteAssetExchange (storage : Storage) (env_contract : Addr)
    (sender : Addr) (exchanges : List AssetExchange) (toAddr : Option Addr)
    (memo : Option String) : Except String ExecResult :=
  let state := storage.state
  if sender ≠ state.lp ∧ sender ≠ state.admin then
    .error "only the lp or admin can complete asset exchange"
  else
    match remove_asset_exchange_authorization storage.authorizations
      exchanges toAddr memo (sender = state.admin) with
    | .error e => .error e
    | .ok auths =>
      match total_capital_per_denom state.like_capital_denoms exchanges [] with
      | .error e => .error e
      | .ok cap =>
        .ok { storage := { storage with authorizations := auths },
              msgs := completeMsgs state env_contract exchanges toAddr memo cap }

/-- The capital-denom resolution of `HandleMsg::IssueWithdrawal`: an
explicit denom must be accepted, an omitted denom is inferred exactly when
one accepted denom exists. -/
def resolveWithdrawDenom (like : List String) (capital_denom : Option String) :
    Except String String :=
  match capital_denom with
  | some denom_value =>
    if denom_value ∈ like then .ok denom_value
    else .error "unsupported capital denom"
  | none =>
    match like with
    | [d] => .ok d
    | _ => .error "no capital denom"

/-- Source `contract.rs` `HandleMsg::IssueWithdrawal`: lp only; resolve the
capital denom; with no required capital attribute emit a plain bank send,
otherwise query the destination's attributes and either reject (attribute
missing) or emit the marker transfer.  `attrs` embeds the external
identity-attribute registry (`query_attributes`): the attribute names held
by an address. -/
def executeIssueWithdrawal (attrs : Addr → List String) (storage : Storage)
    (env_contract : Addr) (sender : Addr) (toAddr : Addr) (amount : Nat)
    (capital_denom : Option String) : Except String ExecResult :=
  let state := storage.state
  if sender ≠ state.lp then
    .error "only the lp can withdraw"
  else
    match resolveWithdrawDenom state.like_capital_denoms capital_denom with
    | .error e => .error e
    | .ok capital_denom =>
      match state.required_capital_attribute with
      | none =>
        .ok { storage := storage,
              msgs := [CosmosMsg.bankSend toAddr
                [{ amount := amount, denom := capital_denom }]] }
      | some required_capital_attribute =>
        if ¬ (attrs toAddr).any (fun a => a = required_capital_attribute) then
          .error (toAddr ++ " does not have required attribute of "
            ++ required_capital_attribute)
        else
          .ok { storage := storage,
                msgs := [CosmosMsg.markerTransfer
                  { amount := amount, denom := capital_denom } toAddr env_contract] }

/-- Source `contract.rs` `execute`: dispatch over `HandleMsg`.  `attrs` embeds the
identity-attribute registry reachable through `deps.querier`;
`env_contract` is `env.contract.address`.  An error means the host rolls
back the whole call, so no storage change survives a failed command. -/
def execute (attrs : Addr → List String) (storage : Storage) (env_contract : Addr)
    (sender : Addr) : HandleMsg → Except String ExecResult
  | .recover lp => executeRecover storage sender lp
  | .authorizeAssetExchange exchanges toAddr memo =>
    executeAuthorizeAssetExchange storage sender exchanges toAddr memo
  | .cancelAssetExchangeAuthorization exchanges toAddr memo =>
    executeCancelAssetExchangeAuthorization storage sender exchanges toAddr memo
  | .completeAssetExchange exchanges toAddr memo =>
    executeCompleteAssetExchange storage env_contract sender exchanges toAddr memo
  | .issueWithdrawal toAddr amount capital_denom =>
    executeIssueWithdrawal attrs storage env_contract sender toAddr amount capital_denom

namespace V1

/-- Source `migrate.rs` `Status` (referenced by `instantiate.rs` as
`crate::state::Status`): the acceptance gate of the earlier generation. -/
inductive Status
  | draft
  | accepted
deriving DecidableEq, Repr

/-- Source `state.rs` `CapitalCall` (payload only; the source's sequence-keyed
custom equality is irrelevant to the claims settled here). -/
structure CapitalCall where
  sequence : Nat
  amount : Nat
deriving DecidableEq, Repr

/-- Source `state.rs` `Redemption`. -/
structure Redemption where
  sequence : Nat
  asset : Nat
  capital : Nat
deriving DecidableEq, Repr

/-- Source `state.rs` `Distribution`. -/
structure Distribution where
  sequence : Nat
  amount : Nat
deriving DecidableEq, Repr

/-- Source `state.rs` `Withdrawal`. -/
structure Withdrawal where
  sequence : Nat
  toAddr : Addr
  amount : Nat
deriving DecidableEq, Repr

/-- Source `state.rs` `State` of the earlier generation, with the `status` field
added by the revision that `instantiate.rs` constructs (its `State`
literal names every field below); the `HashSet`s are embedded as lists. -/
structure State where
  recovery_admin : Addr
  lp : Addr
  raise : Addr
  capital_denom : String
  capital_per_share : Nat
  min_commitment : Nat
  max_commitment : Nat
  sequence : Nat
  status : Status
  active_capital_call : Option CapitalCall
  closed_capital_calls : List CapitalCall
  cancelled_capital_calls : List CapitalCall
  redemptions : List Redemption
  distributions : List Distribution
  withdrawals : List Withdrawal
deriving DecidableEq, Repr

/-- Source `state.rs` `State::not_evenly_divisble`: `amount % capital_per_share > 0`.
`Nat` semantics gives `a % 0 = a`, whereas the Rust `u64 %` panics on a zero
divisor; `not_evenly_divisble_checked` captures the panic. -/
def State.not_evenly_divisble (s : State) (amount : Nat) : Bool :=
  amount % s.capital_per_share > 0

/-- Source `state.rs` `State::capital_to_shares`: `amount / capital_per_share`
(integer floor division; Rust panics on a zero divisor, see
`capital_to_shares_checked`). -/
def State.capital_to_shares (s : State) (amount : Nat) : Nat :=
  amount / s.capital_per_share

/-- The check `State::not_evenly_divisble` with the Rust panic made explicit:
`none` exactly when the `%` divisor `capital_per_share` is zero. -/
def State.not_evenly_divisble_checked (s : State) (amount : Nat) : Option Bool :=
  if s.capital_per_share = 0 then none
  else some (decide (amount % s.capital_per_share > 0))

/-- The conversion `State::capital_to_shares` with the Rust panic made explicit:
`none` exactly when the `/` divisor `capital_per_share` is zero. -/
def State.capital_to_shares_checked (s : State) (amount : Nat) : Option Nat :=
  if s.capital_per_share = 0 then none
  else some (amount / s.capital_per_share)

/-- Source `instantiate.rs` `InstantiateMsg` of the earlier generation (fields as
constructed by its tests and read by `instantiate`). -/
structure InstantiateMsg where
  recovery_admin : Addr
  lp : Addr
  capital_denom : String
  capital_per_share : Nat
  min_commitment : Nat
  max_commitment : Nat
deriving DecidableEq, Repr

/-- Source `instantiate.rs` `instantiate`: build the draft state (the sender is
recorded as the raise), reject a `min_commitment` or `max_commitment` not
evenly divisible by `capital_per_share`, and save the state. -/
def instantiate (sender : Addr) (msg : InstantiateMsg) : Except String State :=
  let state : State := {
    raise := sender
    status := Status.draft
    recovery_admin := msg.recovery_admin
    lp := msg.lp
    capital_denom := msg.capital_denom
    capital_per_share := msg.capital_per_share
    min_commitment := msg.min_commitment
    max_commitment := msg.max_commitment
    sequence := 0
    active_capital_call := none
    closed_capital_calls := []
    cancelled_capital_calls := []
    redemptions := []
    distributions := []
    withdrawals := [] }
  if state.not_evenly_divisble msg.min_commitment then
    .error "min commitment must be evenly divisible by capital per share"
  else if state.not_evenly_divisble msg.max_commitment then
    .error "max commitment must be evenly divisible by capital per share"
  else
    .ok state

/-- The entry point `instantiate` with the Rust division-by-zero panic made explicit:
`none` when either divisibility check would divide by a zero
`capital_per_share`, otherwise the `instantiate` outcome. -/
def instantiate_checked (sender : Addr) (msg : InstantiateMsg) :
    Option (Except String State) :=
  if msg.capital_per_share = 0 then none
  else some (instantiate sender msg)

end V1

/-! Claim-side vocabulary: the quantities the specification speaks about,
stated independently of the accumulator-based computations above. -/

/-- The authorization that a `(exchanges, to, memo)` triple denotes. -/
def authTarget (exchanges : List AssetExchange) (toAddr : Option Addr)
    (memo : Option String) : AssetExchangeAuthorization :=
  { exchanges := exchanges, toAddr := toAddr, memo := memo }

/-- How many pending authorizations are structurally equal to `a`
(an absent collection counts as zero). -/
def pendingCount (auths : Option (List AssetExchangeAuthorization))
    (a : AssetExchangeAuthorization) : Nat :=
  (auths.getD []).count a

/-- The stored authorization collection after a removal attempt: the first
structurally-equal entry is erased when one exists, otherwise the
collection is unchanged. -/
def removeResult (auths : Option (List AssetExchangeAuthorization))
    (a : AssetExchangeAuthorization) :
    Option (List AssetExchangeAuthorization) :=
  match auths with
  | none => none
  | some l => if a ∈ l then some (l.erase a) else some l

/-- The capital denom an exchange line settles in: the explicit denom when
given, else the unique accepted denom when exactly one exists; `none` for
lines without a capital amount or with an unresolvable denom. -/
def resolveCapitalDenom (like : List String) (e : AssetExchange) : Option String :=
  match e.capital, e.capital_denom with
  | some _, some d => some d
  | some _, none => (match like with | [d] => some d | _ => none)
  | none, _ => none

/-- The distinct capital denoms a batch of exchange lines settles in. -/
def capitalDenoms (like : List String) (exchanges : List AssetExchange) :
    List String :=
  (exchanges.filterMap (resolveCapitalDenom like)).dedup

/-- The summed capital deltas of the batch for one denom. -/
def capitalSum (like : List String) (exchanges : List AssetExchange)
    (d : String) : Int :=
  (exchanges.filterMap (fun e =>
    if resolveCapitalDenom like e = some d then e.capital else none)).sum

/-- Association-list lookup for the per-denom capital sums. -/
def lookupV (m : List (String × Int)) (d : String) : Option Int :=
  match m with
  | [] => none
  | (k, v) :: t => if k = d then some v else lookupV t d

/-- The coins the spec says a completed batch attaches for its capital
legs: one coin per denom whose summed delta is negative. -/
def expectedCapitalCoins (like : List String) (exchanges : List AssetExchange) :
    List Coin :=
  ((capitalDenoms like exchanges).filter
    (fun d => capitalSum like exchanges d < 0)).map
    (fun d => { amount := (capitalSum like exchanges d).natAbs, denom := d })

/-- The marker transfers the restricted-capital path emits: one per denom
whose summed delta is negative, moving the absolute sum to the raise. -/
def expectedCapitalMarkers (like : List String) (exchanges : List AssetExchange)
    (raise env_contract : Addr) : List CosmosMsg :=
  ((capitalDenoms like exchanges).filter
    (fun d => capitalSum like exchanges d < 0)).map
    (fun d => CosmosMsg.markerTransfer
      { amount := (capitalSum like exchanges d).natAbs, denom := d }
      raise env_contract)

/-- The investment/commitment coins the spec says a completed batch
attaches: one coin per instrument whose summed delta is negative. -/
def expectedBaseCoins (state : State) (exchanges : List AssetExchange) :
    List Coin :=
  (if (exchanges.filterMap AssetExchange.investment).sum < 0 then
    [{ amount := (exchanges.filterMap AssetExchange.investment).sum.natAbs,
       denom := state.investment_denom }]
  else []) ++
  (if (exchanges.filterMap AssetExchange.commitment_in_shares).sum < 0 then
    [{ amount := (exchanges.filterMap AssetExchange.commitment_in_shares).sum.natAbs,
       denom := state.commitment_denom }]
  else [])

/-! Concrete fixtures, mirroring the contract's test states, used to
evaluate the theorems below on closed inputs. -/

/-- A state with one unrestricted capital coin (`State::test_capital_coin`). -/
def capitalCoinState : State :=
  { admin := "admin", lp := "lp", raise := "raise_1",
    commitment_denom := "commitment_coin", investment_denom := "investment_coin",
    like_capital_denoms := ["capital_coin"], capital_per_share := 100,
    required_capital_attribute := none }

/-- A state whose capital coin is restricted by a required attribute
(`State::test_restricted_capital_coin`). -/
def restrictedCoinState : State :=
  { capitalCoinState with
    like_capital_denoms := ["restricted_capital_coin"],
    required_capital_attribute := some "capital.test" }

/-- An exchange line moving 1000 of everything toward the contract. -/
def acceptExchange : AssetExchange :=
  { investment := some 1000, commitment_in_shares := some 1000,
    capital_denom := some "capital_coin", capital := some 1000, date := none }

/-- An exchange line moving 1000 of everything out of the contract. -/
def sendExchange : AssetExchange :=
  { investment := some (-1000), commitment_in_shares := some (-1000),
    capital_denom := some "capital_coin", capital := some (-1000), date := none }

/-- An exchange line moving 1000 of restricted capital out of the
contract. -/
def restrictedSendExchange : AssetExchange :=
  { investment := none, commitment_in_shares := none,
    capital_denom := some "restricted_capital_coin", capital := some (-1000),
    date := none }

/-- An exchange line carrying capital with no explicit denom. -/
def inferredCapitalExchange : AssetExchange :=
  { investment := none, commitment_in_shares := none, capital_denom := none,
    capital := some 5, date := none }

/-- An exchange line naming a capital denom outside the accepted set. -/
def unsupportedCapitalExchange : AssetExchange :=
  { investment := none, commitment_in_shares := none,
    capital_denom := some "bogus_coin", capital := some 5, date := none }

/-- A state accepting two capital denoms. -/
def twoDenomState : State :=
  { admin := "admin", lp := "lp", raise := "raise_1",
    commitment_denom := "commitment_coin", investment_denom := "investment_coin",
    like_capital_denoms := ["cap_a", "cap_b"], capital_per_share := 100,
    required_capital_attribute := none }

/-! Helper lemmas about the authorization scan-and-remove. -/

/-- The `position`-then-`remove` idiom removes the first structurally-equal
entry: it behaves as `List.erase` when a match exists and as a no-op signal
otherwise. -/
theorem findIdx_erase_spec {α : Type} [DecidableEq α] (t : α) (l : List α) :
    (match l.findIdx? (fun e => t = e) with
     | some i => some (l.eraseIdx i)
     | none => none) = if t ∈ l then some (l.erase t) else none := by
  induction l with
  | nil => simp
  | cons a tl ih =>
    by_cases h : t = a
    · subst h
      simp [List.findIdx?_cons]
    · have hpa : (decide (t = a)) = false := by simp [h]
      have hne : (a == t) = false := by simp [Ne.symm h]
      rw [List.findIdx?_cons, hpa]
      simp only [Bool.false_eq_true, if_false]
      rw [List.findIdx?_succ]
      rcases hf : tl.findIdx? (fun e => t = e) with _ | j
      · rw [hf] at ih
        simp only [Option.map_none] at *
        have ht : t ∉ tl := by
          by_contra hmem
          rw [if_pos hmem] at ih
          exact Option.noConfusion ih
        simp [h, ht]
      · rw [hf] at ih
        simp only [Option.map_some] at *
        have ht : t ∈ tl := by
          by_contra hmem
          rw [if_neg hmem] at ih
          exact Option.noConfusion ih
        rw [if_pos ht] at ih
        have herase : tl.eraseIdx j = tl.erase t := Option.some.inj ih
        have hmem' : t ∈ a :: tl := List.mem_cons_of_mem a ht
        have hne' : ¬ (a == t) = true := by simp [hne]
        show some ((a :: tl).eraseIdx (j + 1)) = if t ∈ a :: tl then some ((a :: tl).erase t) else none
        rw [if_pos hmem', List.eraseIdx_cons_succ, herase, List.erase_cons_tail hne']

/-- Full characterization of `remove_asset_exchange_authorization`: with a
structural match present the first matching entry is erased; with no match
the call errors exactly when removal is required and otherwise leaves the
collection untouched. -/
theorem remove_asset_exchange_authorization_eq
    (auths : Option (List AssetExchangeAuthorization))
    (exchanges : List AssetExchange) (toAddr : Option Addr) (memo : Option String)
    (req : Bool) :
    remove_asset_exchange_authorization auths exchanges toAddr memo req =
      if 0 < pendingCount auths (authTarget exchanges toAddr memo) then
        .ok (removeResult auths (authTarget exchanges toAddr memo))
      else if req then .error "no previously authorized asset exchange matched"
      else .ok auths := by
  cases auths with
  | none => simp [remove_asset_exchange_authorization, pendingCount, removeResult]
  | some l =>
    have key : remove_asset_exchange_authorization (some l) exchanges toAddr memo req =
        match l.findIdx? (fun e => authTarget exchanges toAddr memo = e) with
        | some index => .ok (some (l.eraseIdx index))
        | none =>
          if req then .error "no previously authorized asset exchange matched"
          else .ok (some l) := rfl
    have hspec := findIdx_erase_spec (authTarget exchanges toAddr memo) l
    by_cases hmem : authTarget exchanges toAddr memo ∈ l
    · rw [if_pos hmem] at hspec
      have hcnt : 0 < pendingCount (some l) (authTarget exchanges toAddr memo) := by
        simpa [pendingCount] using List.count_pos_iff.mpr hmem
      rcases hf : l.findIdx? (fun e => authTarget exchanges toAddr memo = e) with _ | i
      · rw [hf] at hspec; exact absurd hspec (by simp)
      · rw [hf] at hspec
        have herase : l.eraseIdx i = l.erase (authTarget exchanges toAddr memo) :=
          Option.some.inj hspec
        rw [key, hf, if_pos hcnt]
        show Except.ok (some (l.eraseIdx i)) = _
        rw [herase]
        simp [removeResult, hmem]
    · rw [if_neg hmem] at hspec
      have hcnt : ¬ 0 < pendingCount (some l) (authTarget exchanges toAddr memo) := by
        simp only [pendingCount, Option.getD_some]
        simpa using fun h => hmem (List.count_pos_iff.mp h)
      rcases hf : l.findIdx? (fun e => authTarget exchanges toAddr memo = e) with _ | i
      · rw [key, hf, if_neg hcnt]
      · rw [hf] at hspec; exact absurd hspec (by simp)

/-- The fold `total_capital_per_denom` has a single error message. -/
theorem total_capital_per_denom_error (like : List String)
    (exchanges : List AssetExchange) (acc : List (String × Int)) (e : String)
    (h : total_capital_per_denom like exchanges acc = .error e) :
    e = "no capital denom" := by
  induction exchanges generalizing acc with
  | nil => exact absurd h (by simp [total_capital_per_denom])
  | cons x rest ih =>
    obtain ⟨inv, com, cd, capv, dt⟩ := x
    rcases capv with _ | v
    · rw [total_capital_per_denom] at h
      exact ih _ h
    · rcases cd with _ | d
      · rcases like with _ | ⟨d1, tl⟩
        · rw [total_capital_per_denom] at h
          exact (Except.error.inj h).symm
        · rcases tl with _ | ⟨d2, tl2⟩
          · rw [total_capital_per_denom] at h
            exact ih _ h
          · rw [total_capital_per_denom] at h
            exact (Except.error.inj h).symm
      · rw [total_capital_per_denom] at h
        exact ih _ h

/-! Association-list lemmas for the per-denom capital accumulator. -/

theorem lookupV_upsert (m : List (String × Int)) (d x : String) (v : Int) :
    lookupV (upsert m d v) x =
      if x = d then some ((lookupV m d).getD 0 + v) else lookupV m x := by
  induction m with
  | nil =>
    by_cases h : x = d
    · subst h; simp [upsert, lookupV]
    · simp [upsert, lookupV, h, Ne.symm h]
  | cons p t ih =>
    obtain ⟨k, w⟩ := p
    by_cases hk : k = d
    · subst hk
      by_cases h : x = k
      · subst h; simp [upsert, lookupV]
      · simp [upsert, lookupV, h, Ne.symm h]
    · by_cases h : x = k
      · subst h
        have hxd : x ≠ d := hk
        simp [upsert, lookupV, hk, hxd]
      · simp [upsert, lookupV, hk, Ne.symm h, h, ih]

theorem lookupV_eq_none_iff (m : List (String × Int)) (d : String) :
    lookupV m d = none ↔ d ∉ m.map Prod.fst := by
  induction m with
  | nil => simp [lookupV]
  | cons p t ih =>
    obtain ⟨k, w⟩ := p
    by_cases h : k = d
    · subst h; simp [lookupV]
    · simp [lookupV, h, Ne.symm h, ih]

theorem keys_upsert (m : List (String × Int)) (d : String) (v : Int) :
    (upsert m d v).map Prod.fst =
      if d ∈ m.map Prod.fst then m.map Prod.fst else m.map Prod.fst ++ [d] := by
  induction m with
  | nil => simp [upsert]
  | cons p t ih =>
    obtain ⟨k, w⟩ := p
    by_cases hk : k = d
    · subst hk; simp [upsert]
    · simp only [upsert, if_neg hk, List.map_cons, List.mem_cons, ih]
      by_cases hmem : d ∈ t.map Prod.fst <;>
        simp [hmem, Ne.symm hk]

theorem nodup_keys_upsert (m : List (String × Int)) (d : String) (v : Int)
    (h : (m.map Prod.fst).Nodup) : ((upsert m d v).map Prod.fst).Nodup := by
  rw [keys_upsert]
  by_cases hmem : d ∈ m.map Prod.fst
  · simpa [hmem] using h
  · simpa [hmem] using List.Nodup.append h (by simp) (by simpa using hmem)

theorem mem_iff_lookupV (m : List (String × Int)) (d : String) (v : Int)
    (h : (m.map Prod.fst).Nodup) : (d, v) ∈ m ↔ lookupV m d = some v := by
  induction m with
  | nil => simp [lookupV]
  | cons p t ih =>
    obtain ⟨k, w⟩ := p
    rcases List.nodup_cons.mp h with ⟨hk, ht⟩
    by_cases hkd : k = d
    · subst hkd
      simp only [lookupV, if_pos rfl, List.mem_cons]
      constructor
      · rintro (he | hmem)
        · simp [((Prod.mk.injEq _ _ _ _).mp he).2]
        · exact absurd (List.mem_map_of_mem Prod.fst hmem) hk
      · intro hv
        exact Or.inl (by rw [Option.some.inj hv])
    · simp only [lookupV, if_neg hkd, List.mem_cons]
      rw [← ih ht]
      constructor
      · rintro (he | hmem)
        · exact absurd ((Prod.mk.injEq _ _ _ _).mp he).1.symm hkd
        · exact hmem
      · exact Or.inr

theorem lookupV_map_pair (l : List String) (f : String → Int) (x : String) :
    lookupV (l.map (fun d => (d, f d))) x =
      if x ∈ l then some (f x) else none := by
  induction l with
  | nil => simp [lookupV]
  | cons a t ih =>
    by_cases h : a = x
    · subst h; simp [lookupV]
    · simp [lookupV, h, Ne.symm h, ih]

/-- Lookup characterization of the per-denom capital fold, relative to an
arbitrary accumulator. -/
theorem tcpd_lookup (like : List String) (exchanges : List AssetExchange) :
    ∀ acc m, total_capital_per_denom like exchanges acc = .ok m →
    ∀ x, lookupV m x =
      if x ∈ exchanges.filterMap (resolveCapitalDenom like) ∨ (lookupV acc x).isSome
      then some ((lookupV acc x).getD 0 + capitalSum like exchanges x) else none := by
  induction exchanges with
  | nil =>
    intro acc m h x
    have hm : acc = m := Except.ok.inj h
    subst hm
    rcases ha : lookupV acc x with _ | w
    · simp [capitalSum, ha]
    · simp [capitalSum, ha]
  | cons e rest ih =>
    intro acc m h x
    obtain ⟨inv, com, cd, capv, dt⟩ := e
    rcases capv with _ | v
    · rw [total_capital_per_denom] at h
      have hres : resolveCapitalDenom like ⟨inv, com, cd, none, dt⟩ = none := by
        simp [resolveCapitalDenom]
      have hsum : capitalSum like (⟨inv, com, cd, none, dt⟩ :: rest) x
          = capitalSum like rest x := by
        simp [capitalSum, List.filterMap_cons, hres]
      rw [List.filterMap_cons, hres, hsum]
      exact ih acc m h x
    · -- a line carrying capital; its denom must have resolved
      have main : ∀ d : String, resolveCapitalDenom like ⟨inv, com, cd, some v, dt⟩ = some d →
          total_capital_per_denom like rest (upsert acc d v) = .ok m →
          lookupV m x =
            if x ∈ (⟨inv, com, cd, some v, dt⟩ :: rest : List AssetExchange).filterMap
                (resolveCapitalDenom like) ∨ (lookupV acc x).isSome
            then some ((lookupV acc x).getD 0 +
              capitalSum like (⟨inv, com, cd, some v, dt⟩ :: rest) x) else none := by
        intro d hres hrec
        have hihx := ih (upsert acc d v) m hrec x
        rw [List.filterMap_cons, hres]
        by_cases hxd : x = d
        · subst hxd
          have hup : lookupV (upsert acc x v) x = some ((lookupV acc x).getD 0 + v) := by
            rw [lookupV_upsert]; simp
          have hsum : capitalSum like (⟨inv, com, cd, some v, dt⟩ :: rest) x
              = v + capitalSum like rest x := by
            simp [capitalSum, List.filterMap_cons, hres]
          rw [hsum, hihx, hup]
          simp [add_assoc]
        · have hdx : ¬ d = x := fun hh => hxd hh.symm
          have hup : lookupV (upsert acc d v) x = lookupV acc x := by
            rw [lookupV_upsert]; simp [hxd]
          have hsum : capitalSum like (⟨inv, com, cd, some v, dt⟩ :: rest) x
              = capitalSum like rest x := by
            simp [capitalSum, List.filterMap_cons, hres, hxd, hdx]
          rw [hsum, hihx, hup]
          have hcond : (x ∈ d :: rest.filterMap (resolveCapitalDenom like)
              ∨ (lookupV acc x).isSome = true)
              ↔ (x ∈ rest.filterMap (resolveCapitalDenom like)
                ∨ (lookupV acc x).isSome = true) := by
            simp [hxd]
          by_cases hm2 : x ∈ rest.filterMap (resolveCapitalDenom like)
              ∨ (lookupV acc x).isSome = true
          · rw [if_pos hm2, if_pos (hcond.mpr hm2)]
          · rw [if_neg hm2, if_neg (fun hc => hm2 (hcond.mp hc))]
      rcases cd with _ | d
      · rcases hlike : like with _ | ⟨l1, lt⟩
        · subst hlike
          simp [total_capital_per_denom] at h
        · rcases lt with _ | ⟨l2, lt2⟩
          · subst hlike
            rw [total_capital_per_denom] at h
            exact main l1 rfl h
          · subst hlike
            simp [total_capital_per_denom] at h
      · rw [total_capital_per_denom] at h
        exact main d rfl h

/-- The fold preserves distinctness of the accumulator's keys. -/
theorem tcpd_nodup_keys (like : List String) (exchanges : List AssetExchange) :
    ∀ acc m, total_capital_per_denom like exchanges acc = .ok m →
    (acc.map Prod.fst).Nodup → (m.map Prod.fst).Nodup := by
  induction exchanges with
  | nil =>
    intro acc m h hnd
    rw [(Except.ok.inj h).symm]; exact hnd
  | cons e rest ih =>
    intro acc m h hnd
    obtain ⟨inv, com, cd, capv, dt⟩ := e
    rcases capv with _ | v
    · rw [total_capital_per_denom] at h
      exact ih acc m h hnd
    · rcases cd with _ | d
      · rcases hlike : like with _ | ⟨l1, lt⟩
        · subst hlike
          simp [total_capital_per_denom] at h
        · rcases lt with _ | ⟨l2, lt2⟩
          · subst hlike
            rw [total_capital_per_denom] at h
            exact ih _ m h (nodup_keys_upsert _ _ _ hnd)
          · subst hlike
            simp [total_capital_per_denom] at h
      · rw [total_capital_per_denom] at h
        exact ih _ m h (nodup_keys_upsert _ _ _ hnd)

/-- The per-denom capital sums the fold computes are, up to permutation,
exactly one entry per settled denom carrying that denom's summed deltas. -/
theorem tcpd_perm (like : List String) (exchanges : List AssetExchange)
    (m : List (String × Int))
    (h : total_capital_per_denom like exchanges [] = .ok m) :
    m.Perm ((capitalDenoms like exchanges).map
      (fun d => (d, capitalSum like exchanges d))) := by
  have hnd : (m.map Prod.fst).Nodup := tcpd_nodup_keys like exchanges [] m h (by simp)
  have hlook := tcpd_lookup like exchanges [] m h
  have hlookm : ∀ x, lookupV m x =
      if x ∈ exchanges.filterMap (resolveCapitalDenom like)
      then some (capitalSum like exchanges x) else none := by
    intro x
    have := hlook x
    simpa [lookupV] using this
  set c := (capitalDenoms like exchanges).map
    (fun d => (d, capitalSum like exchanges d)) with hc
  have hndc : (c.map Prod.fst).Nodup := by
    rw [hc, List.map_map]
    have : (Prod.fst ∘ fun d => (d, capitalSum like exchanges d)) = id := rfl
    rw [this, List.map_id]
    exact List.nodup_dedup _
  have hlookc : ∀ x, lookupV c x =
      if x ∈ exchanges.filterMap (resolveCapitalDenom like)
      then some (capitalSum like exchanges x) else none := by
    intro x
    rw [hc, lookupV_map_pair]
    by_cases hx : x ∈ exchanges.filterMap (resolveCapitalDenom like) <;>
      simp [capitalDenoms, hx]
  have hmemiff : ∀ p : String × Int, p ∈ m ↔ p ∈ c := by
    intro ⟨d, v⟩
    rw [mem_iff_lookupV m d v hnd, mem_iff_lookupV c d v hndc, hlookm, hlookc]
  exact List.perm_of_nodup_nodup_toFinset_eq
    (List.Nodup.of_map Prod.fst hnd) (List.Nodup.of_map Prod.fst hndc)
    (Finset.ext fun p => by simp [List.mem_toFinset, hmemiff])

/-- Unrestricted capital path: the fold over `capStep` appends one attached
coin per negative per-denom sum and no messages. -/
theorem foldl_capStep_none (raise env_contract : Addr)
    (cap : List (String × Int)) : ∀ fs ms,
    cap.foldl (capStep none raise env_contract) (fs, ms) =
      (fs ++ (cap.filter (fun p => p.2 < 0)).map
        (fun p => { amount := p.2.natAbs, denom := p.1 : Coin }), ms) := by
  induction cap with
  | nil => intro fs ms; simp
  | cons p t ih =>
    intro fs ms
    obtain ⟨d, s⟩ := p
    by_cases hs : s < 0
    · simp [capStep, hs, ih, List.filter_cons]
    · simp [capStep, hs, ih, List.filter_cons]

/-- Restricted capital path: the fold over `capStep` appends one marker
transfer per negative per-denom sum and attaches no capital coins. -/
theorem foldl_capStep_some (attr : String) (raise env_contract : Addr)
    (cap : List (String × Int)) : ∀ fs ms,
    cap.foldl (capStep (some attr) raise env_contract) (fs, ms) =
      (fs, ms ++ (cap.filter (fun p => p.2 < 0)).map
        (fun p => CosmosMsg.markerTransfer { amount := p.2.natAbs, denom := p.1 }
          raise env_contract)) := by
  induction cap with
  | nil => intro fs ms; simp
  | cons p t ih =>
    intro fs ms
    obtain ⟨d, s⟩ := p
    by_cases hs : s < 0
    · simp [capStep, hs, ih, List.filter_cons]
    · simp [capStep, hs, ih, List.filter_cons]

theorem uint32_lt_asymm {a b : UInt32} (h : a < b) : ¬ b < a := by
  intro h'
  have n1 : a.toBitVec.toNat < b.toBitVec.toNat := h
  have n2 : b.toBitVec.toNat < a.toBitVec.toNat := h'
  omega

theorem uint32_lt_irrefl {a : UInt32} : ¬ a < a := by
  intro h
  have n1 : a.toBitVec.toNat < a.toBitVec.toNat := h
  omega

theorem uint32_eq_of_not_lt {a b : UInt32} (h : ¬ a < b) (h' : ¬ b < a) : a = b := by
  have n1 : ¬ a.toBitVec.toNat < b.toBitVec.toNat := h
  have n2 : ¬ b.toBitVec.toNat < a.toBitVec.toNat := h'
  have ht : a.toBitVec.toNat = b.toBitVec.toNat := by omega
  have hb : a.toBitVec = b.toBitVec := BitVec.eq_of_toNat_eq ht
  cases a; cases b; simp_all

/-- The executable lexicographic comparison agrees with the list order. -/
theorem charListLe_iff : ∀ as bs : List Char, charListLe as bs = true ↔ ¬ bs < as := by
  intro as
  induction as with
  | nil =>
    intro bs
    constructor
    · intro _ h
      cases h
    · intro _
      rfl
  | cons a as ih =>
    intro bs
    cases bs with
    | nil =>
      constructor
      · intro h
        rw [charListLe] at h
        exact absurd h (by simp)
      · intro h
        exact absurd List.Lex.nil h
    | cons b bs =>
      by_cases hab : a.val < b.val
      · constructor
        · intro _ hlt
          cases hlt with
          | cons h => exact uint32_lt_irrefl hab
          | rel h => exact (uint32_lt_asymm hab) h
        · intro _
          rw [charListLe, if_pos hab]
      · by_cases hba : b.val < a.val
        · constructor
          · intro h
            rw [charListLe, if_neg hab, if_pos hba] at h
            exact absurd h (by simp)
          · intro h
            exact absurd (List.Lex.rel (show b < a from hba)) h
        · have heq : a = b := Char.ext (uint32_eq_of_not_lt hab hba)
          subst heq
          constructor
          · intro h hlt
            rw [charListLe, if_neg hab, if_neg hba] at h
            cases hlt with
            | cons h3 => exact ((ih bs).mp h) h3
            | rel h3 => exact uint32_lt_irrefl h3
          · intro h
            rw [charListLe, if_neg hab, if_neg hba]
            exact (ih bs).mpr (fun hlt => h (List.Lex.cons hlt))

/-- The executable denom comparison agrees with the string order. -/
theorem strLe_iff (a b : String) : strLe a b = true ↔ a ≤ b := by
  rw [String.le_iff_toList_le]
  show charListLe a.data b.data = true ↔ a.toList ≤ b.toList
  rw [show (a.toList ≤ b.toList ↔ ¬ b.toList < a.toList) from not_lt.symm]
  exact charListLe_iff a.data b.data

/-- Inserting a coin permutes consing it. -/
theorem insertCoin_perm (c : Coin) (l : List Coin) :
    (insertCoin c l).Perm (c :: l) := by
  induction l with
  | nil => simp [insertCoin]
  | cons d t ih =>
    by_cases h : strLe d.denom c.denom = true
    · simp only [insertCoin, if_pos h]
      exact List.Perm.trans (ih.cons d) (List.Perm.swap c d t)
    · rw [insertCoin, if_neg h]

/-- Insertion preserves sortedness by denom. -/
theorem insertCoin_sorted (c : Coin) (l : List Coin)
    (h : List.Pairwise (fun a b : Coin => a.denom ≤ b.denom) l) :
    List.Pairwise (fun a b : Coin => a.denom ≤ b.denom) (insertCoin c l) := by
  induction l with
  | nil => simp [insertCoin]
  | cons d t ih =>
    rcases List.pairwise_cons.mp h with ⟨hd, ht⟩
    by_cases hle : strLe d.denom c.denom = true
    · simp only [insertCoin, if_pos hle]
      refine List.pairwise_cons.mpr ⟨?_, ih ht⟩
      intro b hb
      rcases List.mem_cons.mp ((insertCoin_perm c t).mem_iff.mp hb) with rfl | hbt
      · exact (strLe_iff _ _).mp hle
      · exact hd b hbt
    · have hcd : c.denom ≤ d.denom :=
        le_of_not_le (fun hc => hle ((strLe_iff _ _).mpr hc))
      simp only [insertCoin, if_neg hle]
      refine List.pairwise_cons.mpr ⟨?_, h⟩
      intro b hb
      rcases List.mem_cons.mp hb with rfl | hbt
      · exact hcd
      · exact le_trans hcd (hd b hbt)

/-- The insertion-sort fold permutes its input onto the accumulator and
sorts from a sorted accumulator. -/
theorem sortCoins_aux (l : List Coin) : ∀ acc : List Coin,
    (l.foldl (fun acc c => insertCoin c acc) acc).Perm (acc ++ l) ∧
    (List.Pairwise (fun a b : Coin => a.denom ≤ b.denom) acc →
      List.Pairwise (fun a b : Coin => a.denom ≤ b.denom)
        (l.foldl (fun acc c => insertCoin c acc) acc)) := by
  induction l with
  | nil => intro acc; simp
  | cons c t ih =>
    intro acc
    constructor
    · have h1 := (ih (insertCoin c acc)).1
      have h2 : (insertCoin c acc ++ t).Perm (acc ++ c :: t) := by
        have := (insertCoin_perm c acc).append_right t
        exact this.trans List.perm_middle.symm
      simpa using h1.trans h2
    · intro hs
      simpa using (ih (insertCoin c acc)).2 (insertCoin_sorted c acc hs)

/-- The `sort_by_key` output is sorted by denom. -/
theorem sortCoins_sorted (l : List Coin) :
    List.Pairwise (fun a b : Coin => a.denom ≤ b.denom) (sortCoins l) :=
  (sortCoins_aux l []).2 (by simp)

/-- The `sort_by_key` step permutes the funds. -/
theorem sortCoins_perm (l : List Coin) : (sortCoins l).Perm l := by
  simpa [sortCoins] using (sortCoins_aux l []).1

/-! Claim theorems. -/

/-- C7: for every state and every caller, `Recover` succeeds if and only if
the caller is the configured admin, and on success the stored state equals
the prior state with only the `lp` field replaced by the supplied address
(authorizations and every other state field unchanged); on failure the
call errors, so the host persists nothing. -/
theorem recover_admin_only_frame (storage : Storage) (sender lp : Addr) :
    executeRecover storage sender lp =
      if sender = storage.state.admin then
        .ok { storage := { storage with state := { storage.state with lp := lp } },
              msgs := [] }
      else .error "only admin can recover subscription" := by
  by_cases h : sender = storage.state.admin <;> simp [executeRecover, h]

/-- C8: for every instantiate message with a positive `capital_per_share`,
`instantiate` rejects exactly when `min_commitment` or `max_commitment` is
not evenly divisible by `capital_per_share`, and any state it saves has
`Draft` status, sequence `0`, no active capital call, and empty
closed/cancelled/redemption/distribution/withdrawal sets. -/
theorem instantiate_divisibility (sender : Addr) (msg : V1.InstantiateMsg)
    (hpos : 0 < msg.capital_per_share) :
    ((∃ err, V1.instantiate sender msg = .error err) ↔
      (¬ msg.capital_per_share ∣ msg.min_commitment ∨
       ¬ msg.capital_per_share ∣ msg.max_commitment)) ∧
    (∀ st, V1.instantiate sender msg = .ok st →
      st.status = V1.Status.draft ∧ st.sequence = 0 ∧
      st.active_capital_call = none ∧ st.closed_capital_calls = [] ∧
      st.cancelled_capital_calls = [] ∧ st.redemptions = [] ∧
      st.distributions = [] ∧ st.withdrawals = []) := by
  have hmod : ∀ a : Nat,
      (0 < a % msg.capital_per_share) ↔ ¬ msg.capital_per_share ∣ a := by
    intro a
    rw [Nat.dvd_iff_mod_eq_zero, Nat.pos_iff_ne_zero]
  constructor
  · constructor
    · rintro ⟨err, herr⟩
      by_cases h1 : 0 < msg.min_commitment % msg.capital_per_share
      · exact Or.inl ((hmod _).mp h1)
      · by_cases h2 : 0 < msg.max_commitment % msg.capital_per_share
        · exact Or.inr ((hmod _).mp h2)
        · simp [V1.instantiate, V1.State.not_evenly_divisble, h1, h2] at herr
    · rintro (hnd | hnd)
      · have h1 : 0 < msg.min_commitment % msg.capital_per_share := (hmod _).mpr hnd
        exact ⟨"min commitment must be evenly divisible by capital per share",
          by simp [V1.instantiate, V1.State.not_evenly_divisble, h1]⟩
      · by_cases h1 : 0 < msg.min_commitment % msg.capital_per_share
        · exact ⟨"min commitment must be evenly divisible by capital per share",
            by simp [V1.instantiate, V1.State.not_evenly_divisble, h1]⟩
        · have h2 : 0 < msg.max_commitment % msg.capital_per_share := (hmod _).mpr hnd
          exact ⟨"max commitment must be evenly divisible by capital per share",
            by simp [V1.instantiate, V1.State.not_evenly_divisble, h1, h2]⟩
  · intro st hok
    by_cases h1 : 0 < msg.min_commitment % msg.capital_per_share
    · simp [V1.instantiate, V1.State.not_evenly_divisble, h1] at hok
    · by_cases h2 : 0 < msg.max_commitment % msg.capital_per_share
      · simp [V1.instantiate, V1.State.not_evenly_divisble, h1, h2] at hok
      · simp only [V1.instantiate, V1.State.not_evenly_divisble] at hok
        rw [if_neg (by simpa using h1), if_neg (by simpa using h2)] at hok
        rw [← Except.ok.inj hok]
        exact ⟨rfl, rfl, rfl, rfl, rfl, rfl, rfl, rfl⟩

/-- C8 witness: the contract's own test instantiation (`capital_per_share =
100`, commitments 10000/50000) satisfies the characterization. -/
theorem instantiate_divisibility_witness :
    ((∃ err, V1.instantiate "lp"
        ⟨"admin", "lp", "stable_coin", 100, 10000, 50000⟩ = .error err) ↔
      (¬ (100:Nat) ∣ 10000 ∨ ¬ (100:Nat) ∣ 50000)) ∧
    (∀ st, V1.instantiate "lp"
        ⟨"admin", "lp", "stable_coin", 100, 10000, 50000⟩ = .ok st →
      st.status = V1.Status.draft ∧ st.sequence = 0 ∧
      st.active_capital_call = none ∧ st.closed_capital_calls = [] ∧
      st.cancelled_capital_calls = [] ∧ st.redemptions = [] ∧
      st.distributions = [] ∧ st.withdrawals = []) :=
  instantiate_divisibility "lp" ⟨"admin", "lp", "stable_coin", 100, 10000, 50000⟩
    (by decide)

/-- C10: the divisibility check and the share conversion are well-defined
exactly when `capital_per_share` is nonzero (the checked embeddings agree
with the total `Nat` embeddings there), and `instantiate` performs no
nonzero-validation of `capital_per_share`: with a zero ratio its checked
run panics (`none`) instead of returning a validation error. -/
theorem capital_per_share_totality :
    (∀ (s : V1.State) (amount : Nat),
      (s.not_evenly_divisble_checked amount).isSome ↔ s.capital_per_share ≠ 0) ∧
    (∀ (s : V1.State) (amount : Nat),
      (s.capital_to_shares_checked amount).isSome ↔ s.capital_per_share ≠ 0) ∧
    (∀ (s : V1.State) (amount : Nat), s.capital_per_share ≠ 0 →
      s.not_evenly_divisble_checked amount = some (s.not_evenly_divisble amount) ∧
      s.capital_to_shares_checked amount = some (s.capital_to_shares amount)) ∧
    (∀ (sender : Addr) (msg : V1.InstantiateMsg), msg.capital_per_share = 0 →
      V1.instantiate_checked sender msg = none) ∧
    (∀ (sender : Addr) (msg : V1.InstantiateMsg), msg.capital_per_share ≠ 0 →
      V1.instantiate_checked sender msg = some (V1.instantiate sender msg)) := by
  refine ⟨?_, ?_, ?_, ?_, ?_⟩
  · intro s amount
    by_cases h : s.capital_per_share = 0 <;>
      simp [V1.State.not_evenly_divisble_checked, h]
  · intro s amount
    by_cases h : s.capital_per_share = 0 <;>
      simp [V1.State.capital_to_shares_checked, h]
  · intro s amount h
    constructor
    · simp [V1.State.not_evenly_divisble_checked, V1.State.not_evenly_divisble, h]
    · simp [V1.State.capital_to_shares_checked, V1.State.capital_to_shares, h]
  · intro sender msg h
    simp [V1.instantiate_checked, h]
  · intro sender msg h
    simp [V1.instantiate_checked, h]

/-- C10 witness: with a zero ratio the checked operations are undefined and
the checked instantiation panics; with the test ratio 100 they are defined. -/
theorem capital_per_share_totality_witness :
    V1.instantiate_checked "lp" ⟨"admin", "lp", "stable_coin", 0, 10000, 50000⟩
      = none ∧
    V1.instantiate_checked "lp" ⟨"admin", "lp", "stable_coin", 100, 10000, 50000⟩
      = some (V1.instantiate "lp" ⟨"admin", "lp", "stable_coin", 100, 10000, 50000⟩) :=
  ⟨capital_per_share_totality.2.2.2.1 "lp" _ (by decide),
   capital_per_share_totality.2.2.2.2 "lp" _ (by decide)⟩

/-- Guard-free unfolding of `CompleteAssetExchange` for an authorized
caller. -/
theorem executeCompleteAssetExchange_eq (storage : Storage) (env_contract : Addr)
    (sender : Addr) (exchanges : List AssetExchange) (toAddr : Option Addr)
    (memo : Option String)
    (hs : sender = storage.state.lp ∨ sender = storage.state.admin) :
    executeCompleteAssetExchange storage env_contract sender exchanges toAddr memo =
      match remove_asset_exchange_authorization storage.authorizations exchanges
        toAddr memo (sender = storage.state.admin) with
      | .error e => .error e
      | .ok auths =>
        match total_capital_per_denom storage.state.like_capital_denoms exchanges [] with
        | .error e => .error e
        | .ok cap =>
          .ok { storage := { storage with authorizations := auths },
                msgs := completeMsgs storage.state env_contract exchanges toAddr memo cap } := by
  have hneg : ¬ (sender ≠ storage.state.lp ∧ sender ≠ storage.state.admin) := by
    rcases hs with h | h <;> simp [h]
  simp only [executeCompleteAssetExchange, if_neg hneg]

/-- C4: `CancelAssetExchangeAuthorization` by the subscriber fails exactly
when no pending authorization structurally equal to the submitted triple
exists (also with an empty or absent collection), never silently
succeeding; on success exactly the first structurally-equal entry is
removed, the rest of storage is unchanged, and no messages are emitted. -/
theorem cancel_requires_match (storage : Storage) (exchanges : List AssetExchange)
    (toAddr : Option Addr) (memo : Option String) :
    ((∃ err, executeCancelAssetExchangeAuthorization storage storage.state.lp
        exchanges toAddr memo = .error err) ↔
      pendingCount storage.authorizations (authTarget exchanges toAddr memo) = 0) ∧
    (∀ res, executeCancelAssetExchangeAuthorization storage storage.state.lp
        exchanges toAddr memo = .ok res →
      res.storage.state = storage.state ∧ res.msgs = [] ∧
      res.storage.authorizations =
        some ((storage.authorizations.getD []).erase
          (authTarget exchanges toAddr memo))) := by
  have hguard : ¬ (storage.state.lp ≠ storage.state.lp) := by simp
  have hrm := remove_asset_exchange_authorization_eq storage.authorizations
    exchanges toAddr memo true
  by_cases hcnt : 0 < pendingCount storage.authorizations (authTarget exchanges toAddr memo)
  · rw [if_pos hcnt] at hrm
    have hauths : ∃ l, storage.authorizations = some l := by
      rcases ha : storage.authorizations with _ | l
      · rw [ha] at hcnt; simp [pendingCount] at hcnt
      · exact ⟨l, rfl⟩
    obtain ⟨l, hl⟩ := hauths
    have hmem : authTarget exchanges toAddr memo ∈ l := by
      rw [hl] at hcnt
      simpa [pendingCount] using List.count_pos_iff.mp (by simpa [pendingCount] using hcnt)
    have hres : removeResult storage.authorizations (authTarget exchanges toAddr memo)
        = some (l.erase (authTarget exchanges toAddr memo)) := by
      rw [hl]; simp [removeResult, hmem]
    constructor
    · constructor
      · rintro ⟨err, herr⟩
        rw [executeCancelAssetExchangeAuthorization] at herr
        rw [if_neg hguard, hrm, hres] at herr
        exact absurd herr (by simp)
      · intro h0
        exact absurd h0 (by omega)
    · intro res hok
      rw [executeCancelAssetExchangeAuthorization, if_neg hguard, hrm, hres] at hok
      have := Except.ok.inj hok
      rw [← this, hl]
      exact ⟨rfl, rfl, rfl⟩
  · rw [if_neg hcnt, if_pos rfl] at hrm
    constructor
    · constructor
      · intro _
        omega
      · intro _
        refine ⟨"no previously authorized asset exchange matched", ?_⟩
        rw [executeCancelAssetExchangeAuthorization, if_neg hguard, hrm]
    · intro res hok
      rw [executeCancelAssetExchangeAuthorization, if_neg hguard, hrm] at hok
      exact absurd hok (by simp)

/-- C4 witness: the contract's cancel test — one stored authorization,
cancel by the lp removes it; against the empty collection the same cancel
errors. -/
theorem cancel_requires_match_witness :
    ((∃ err, executeCancelAssetExchangeAuthorization
        ⟨capitalCoinState, some [⟨[acceptExchange], some "lp_side_account", some "memo"⟩]⟩
        "lp" [acceptExchange] (some "lp_side_account") (some "memo") = .error err) ↔
      pendingCount (some [⟨[acceptExchange], some "lp_side_account", some "memo"⟩])
        (authTarget [acceptExchange] (some "lp_side_account") (some "memo")) = 0) ∧
    (∀ res, executeCancelAssetExchangeAuthorization
        ⟨capitalCoinState, some [⟨[acceptExchange], some "lp_side_account", some "memo"⟩]⟩
        "lp" [acceptExchange] (some "lp_side_account") (some "memo") = .ok res →
      res.storage.state = capitalCoinState ∧ res.msgs = [] ∧
      res.storage.authorizations =
        some (([⟨[acceptExchange], some "lp_side_account", some "memo"⟩] :
          List AssetExchangeAuthorization).erase
          (authTarget [acceptExchange] (some "lp_side_account") (some "memo")))) :=
  cancel_requires_match
    ⟨capitalCoinState, some [⟨[acceptExchange], some "lp_side_account", some "memo"⟩]⟩
    [acceptExchange] (some "lp_side_account") (some "memo")

/-- C1: admin-invoked `CompleteAssetExchange` fails with the protocol error
`no previously authorized asset exchange matched` exactly when no pending
authorization structurally equal to `(exchanges, to, memo)` exists; on
success exactly the first structurally-equal entry is removed from storage,
so an immediately repeated identical admin completion against the resulting
state fails exactly when fewer than two identical entries existed. -/
theorem complete_admin_exactly_once (storage : Storage) (env_contract : Addr)
    (exchanges : List AssetExchange) (toAddr : Option Addr) (memo : Option String) :
    (executeCompleteAssetExchange storage env_contract storage.state.admin
        exchanges toAddr memo = .error "no previously authorized asset exchange matched"
      ↔ pendingCount storage.authorizations (authTarget exchanges toAddr memo) = 0) ∧
    (∀ res, executeCompleteAssetExchange storage env_contract storage.state.admin
        exchanges toAddr memo = .ok res →
      res.storage.authorizations =
        some ((storage.authorizations.getD []).erase (authTarget exchanges toAddr memo)) ∧
      ((∃ err, executeCompleteAssetExchange res.storage env_contract
          storage.state.admin exchanges toAddr memo = .error err) ↔
        pendingCount storage.authorizations (authTarget exchanges toAddr memo) < 2)) := by
  have hcae := executeCompleteAssetExchange_eq storage env_contract
    storage.state.admin exchanges toAddr memo (Or.inr rfl)
  have hreq : (decide (storage.state.admin = storage.state.admin)) = true := by simp
  have hrm := remove_asset_exchange_authorization_eq storage.authorizations
    exchanges toAddr memo (decide (storage.state.admin = storage.state.admin))
  rw [hreq] at hrm hcae
  by_cases hcnt : 0 < pendingCount storage.authorizations (authTarget exchanges toAddr memo)
  · rw [if_pos hcnt] at hrm
    have hauths : ∃ l, storage.authorizations = some l := by
      rcases ha : storage.authorizations with _ | l
      · rw [ha] at hcnt; simp [pendingCount] at hcnt
      · exact ⟨l, rfl⟩
    obtain ⟨l, hl⟩ := hauths
    have hcl : 0 < l.count (authTarget exchanges toAddr memo) := by
      rw [hl] at hcnt; simpa [pendingCount] using hcnt
    have hmem : authTarget exchanges toAddr memo ∈ l := List.count_pos_iff.mp hcl
    have hres : removeResult storage.authorizations (authTarget exchanges toAddr memo)
        = some (l.erase (authTarget exchanges toAddr memo)) := by
      rw [hl]; simp [removeResult, hmem]
    rw [hrm, hres] at hcae
    constructor
    · constructor
      · intro herr
        rw [hcae] at herr
        rcases hf : total_capital_per_denom storage.state.like_capital_denoms
            exchanges [] with e | cap <;> rw [hf] at herr
        · have := total_capital_per_denom_error _ _ _ _ hf
          subst this
          exact absurd (Except.error.inj herr) (by decide)
        · exact absurd herr (by simp)
      · intro h0; omega
    · intro res hok
      rw [hcae] at hok
      rcases hf : total_capital_per_denom storage.state.like_capital_denoms
          exchanges [] with e | cap <;> rw [hf] at hok
      · exact absurd hok (by simp)
      · have hres2 := Except.ok.inj hok
        have hstate : res.storage.state = storage.state := by rw [← hres2]
        have hauths2 : res.storage.authorizations =
            some (l.erase (authTarget exchanges toAddr memo)) := by rw [← hres2]
        refine ⟨by rw [hauths2, hl]; simp, ?_⟩
        have hcnt2 : pendingCount res.storage.authorizations
            (authTarget exchanges toAddr memo) =
            pendingCount storage.authorizations (authTarget exchanges toAddr memo) - 1 := by
          rw [hauths2, hl]
          simp [pendingCount, List.count_erase_self]
        have hcae2 := executeCompleteAssetExchange_eq res.storage env_contract
          storage.state.admin exchanges toAddr memo (Or.inr (by rw [hstate]))
        have hreq2 : (decide (storage.state.admin = res.storage.state.admin)) = true := by
          simp [hstate]
        have hrm2 := remove_asset_exchange_authorization_eq res.storage.authorizations
          exchanges toAddr memo (decide (storage.state.admin = res.storage.state.admin))
        rw [hreq2] at hrm2 hcae2
        by_cases hcnt3 : 0 < pendingCount res.storage.authorizations
            (authTarget exchanges toAddr memo)
        · -- a second identical entry existed: the repeat succeeds
          rw [if_pos hcnt3] at hrm2
          rw [hstate] at hcae2
          rw [hrm2, hf] at hcae2
          constructor
          · rintro ⟨err, herr⟩
            rw [hcae2] at herr
            exact absurd herr (by simp)
          · intro hlt
            omega
        · -- the only match was consumed: the repeat hits the protocol error
          rw [if_neg hcnt3, if_pos rfl] at hrm2
          rw [hrm2] at hcae2
          constructor
          · intro _
            omega
          · intro _
            exact ⟨"no previously authorized asset exchange matched", hcae2⟩
  · rw [if_neg hcnt, if_pos rfl] at hrm
    rw [hrm] at hcae
    constructor
    · constructor
      · intro _; omega
      · intro _; exact hcae
    · intro res hok
      rw [hcae] at hok
      exact absurd hok (by simp)

/-- C1 witness: the contract's admin test — one matching stored
authorization is consumed by the admin completion, and the repeated
identical admin completion fails. -/
theorem complete_admin_exactly_once_witness :
    (executeCompleteAssetExchange
        ⟨capitalCoinState, some [⟨[acceptExchange], some "lp_side_account", some "memo"⟩]⟩
        "cosmos2contract" "admin" [acceptExchange] (some "lp_side_account") (some "memo")
        = .error "no previously authorized asset exchange matched"
      ↔ pendingCount (some [⟨[acceptExchange], some "lp_side_account", some "memo"⟩])
          (authTarget [acceptExchange] (some "lp_side_account") (some "memo")) = 0) ∧
    (∀ res, executeCompleteAssetExchange
        ⟨capitalCoinState, some [⟨[acceptExchange], some "lp_side_account", some "memo"⟩]⟩
        "cosmos2contract" "admin" [acceptExchange] (some "lp_side_account") (some "memo")
        = .ok res →
      res.storage.authorizations =
        some (([⟨[acceptExchange], some "lp_side_account", some "memo"⟩] :
          List AssetExchangeAuthorization).erase
          (authTarget [acceptExchange] (some "lp_side_account") (some "memo"))) ∧
      ((∃ err, executeCompleteAssetExchange res.storage "cosmos2contract"
          "admin" [acceptExchange] (some "lp_side_account") (some "memo") = .error err) ↔
        pendingCount (some [⟨[acceptExchange], some "lp_side_account", some "memo"⟩])
          (authTarget [acceptExchange] (some "lp_side_account") (some "memo")) < 2)) :=
  complete_admin_exactly_once
    ⟨capitalCoinState, some [⟨[acceptExchange], some "lp_side_account", some "memo"⟩]⟩
    "cosmos2contract" [acceptExchange] (some "lp_side_account") (some "memo")

/-- Inversion of a successful `CompleteAssetExchange`: the removal and the
capital fold succeeded and the result is built from their outputs. -/
theorem executeCompleteAssetExchange_ok_inv (storage : Storage) (env_contract : Addr)
    (sender : Addr) (exchanges : List AssetExchange) (toAddr : Option Addr)
    (memo : Option String) (res : ExecResult)
    (hok : executeCompleteAssetExchange storage env_contract sender exchanges
      toAddr memo = .ok res) :
    ∃ auths cap,
      remove_asset_exchange_authorization storage.authorizations exchanges toAddr memo
        (sender = storage.state.admin) = .ok auths ∧
      total_capital_per_denom storage.state.like_capital_denoms exchanges [] = .ok cap ∧
      res = { storage := { storage with authorizations := auths },
              msgs := completeMsgs storage.state env_contract exchanges toAddr memo cap } := by
  by_cases hg : sender ≠ storage.state.lp ∧ sender ≠ storage.state.admin
  · rw [executeCompleteAssetExchange, if_pos hg] at hok
    exact absurd hok (by simp)
  · rw [executeCompleteAssetExchange, if_neg hg] at hok
    rcases hr : remove_asset_exchange_authorization storage.authorizations exchanges
        toAddr memo (sender = storage.state.admin) with e | auths <;> rw [hr] at hok
    · exact absurd hok (by simp)
    · rcases hf : total_capital_per_denom storage.state.like_capital_denoms
          exchanges [] with e | cap <;> rw [hf] at hok
      · exact absurd hok (by simp)
      · exact ⟨auths, cap, rfl, rfl, (Except.ok.inj hok).symm⟩

/-- With no required capital attribute, a completed batch emits exactly the
wasm-execute with negative sums attached as sorted funds. -/
theorem completeMsgs_of_none (state : State) (env_contract : Addr)
    (exchanges : List AssetExchange) (toAddr : Option Addr) (memo : Option String)
    (cap : List (String × Int)) (h : state.required_capital_attribute = none) :
    completeMsgs state env_contract exchanges toAddr memo cap =
      [CosmosMsg.wasmExecute state.raise
        { exchanges := exchanges, toAddr := toAddr, memo := memo }
        (sortCoins (expectedBaseCoins state exchanges ++
          (cap.filter (fun p => p.2 < 0)).map
            (fun p => { amount := p.2.natAbs, denom := p.1 })))] := by
  rw [completeMsgs, h]
  rw [foldl_capStep_none]
  rfl

/-- With a required capital attribute, a completed batch emits one marker
transfer per negative capital sum followed by the wasm-execute whose funds
carry only the investment/commitment legs. -/
theorem completeMsgs_of_some (state : State) (env_contract : Addr)
    (exchanges : List AssetExchange) (toAddr : Option Addr) (memo : Option String)
    (cap : List (String × Int)) (attr : String)
    (h : state.required_capital_attribute = some attr) :
    completeMsgs state env_contract exchanges toAddr memo cap =
      (cap.filter (fun p => p.2 < 0)).map
        (fun p => CosmosMsg.markerTransfer { amount := p.2.natAbs, denom := p.1 }
          state.raise env_contract) ++
      [CosmosMsg.wasmExecute state.raise
        { exchanges := exchanges, toAddr := toAddr, memo := memo }
        (sortCoins (expectedBaseCoins state exchanges))] := by
  rw [completeMsgs, h]
  rw [foldl_capStep_some]
  rfl

/-- The capital coins the fold produces are, as a multiset, exactly the
spec's one-coin-per-negative-denom description. -/
theorem capCoins_multiset (like : List String) (exchanges : List AssetExchange)
    (cap : List (String × Int))
    (h : total_capital_per_denom like exchanges [] = .ok cap) :
    (((cap.filter (fun p => p.2 < 0)).map
      (fun p => { amount := p.2.natAbs, denom := p.1 : Coin })) : Multiset Coin) =
      ↑(expectedCapitalCoins like exchanges) := by
  have hperm := tcpd_perm like exchanges cap h
  have h2 := (hperm.filter (fun p => p.2 < 0)).map
    (fun p : String × Int => { amount := p.2.natAbs, denom := p.1 : Coin })
  rw [Multiset.coe_eq_coe.mpr h2]
  rw [List.filter_map, List.map_map]
  rfl

/-- The marker transfers the restricted fold produces are, as a multiset,
exactly one per negative capital sum toward the raise. -/
theorem capMarkers_multiset (like : List String) (exchanges : List AssetExchange)
    (raise env_contract : Addr) (cap : List (String × Int))
    (h : total_capital_per_denom like exchanges [] = .ok cap) :
    (((cap.filter (fun p => p.2 < 0)).map
      (fun p => CosmosMsg.markerTransfer { amount := p.2.natAbs, denom := p.1 }
        raise env_contract)) : Multiset CosmosMsg) =
      ↑(expectedCapitalMarkers like exchanges raise env_contract) := by
  have hperm := tcpd_perm like exchanges cap h
  have h2 := (hperm.filter (fun p => p.2 < 0)).map
    (fun p : String × Int => CosmosMsg.markerTransfer
      { amount := p.2.natAbs, denom := p.1 } raise env_contract)
  rw [Multiset.coe_eq_coe.mpr h2]
  rw [List.filter_map, List.map_map]
  rfl

/-- C3: every batch accepted by `CompleteAssetExchange` with no required
capital attribute configured yields exactly one outbound wasm-execute to
the raise carrying `CompleteAssetExchange { exchanges, to, memo }`, whose
attached funds are sorted by denom and consist, as a multiset, of exactly
one coin per instrument (investment, commitment, capital-per-denom) whose
summed delta is negative, each carrying the absolute value of that sum. -/
theorem complete_unrestricted_funds (storage : Storage) (env_contract sender : Addr)
    (exchanges : List AssetExchange) (toAddr : Option Addr) (memo : Option String)
    (res : ExecResult)
    (hattr : storage.state.required_capital_attribute = none)
    (hok : executeCompleteAssetExchange storage env_contract sender exchanges
      toAddr memo = .ok res) :
    ∃ funds,
      res.msgs = [CosmosMsg.wasmExecute storage.state.raise
        { exchanges := exchanges, toAddr := toAddr, memo := memo } funds] ∧
      List.Pairwise (fun a b : Coin => a.denom ≤ b.denom) funds ∧
      (↑funds : Multiset Coin) =
        ↑(expectedBaseCoins storage.state exchanges) +
        ↑(expectedCapitalCoins storage.state.like_capital_denoms exchanges) := by
  obtain ⟨auths, cap, hrm, hf, hres⟩ :=
    executeCompleteAssetExchange_ok_inv storage env_contract sender exchanges
      toAddr memo res hok
  subst hres
  refine ⟨sortCoins (expectedBaseCoins storage.state exchanges ++
    (cap.filter (fun p => p.2 < 0)).map
      (fun p => { amount := p.2.natAbs, denom := p.1 })), ?_, ?_, ?_⟩
  · show completeMsgs storage.state env_contract exchanges toAddr memo cap = _
    rw [completeMsgs_of_none storage.state env_contract exchanges toAddr memo cap hattr]
  · exact sortCoins_sorted _
  · rw [Multiset.coe_eq_coe.mpr (sortCoins_perm _), ← Multiset.coe_add]
    rw [capCoins_multiset storage.state.like_capital_denoms exchanges cap hf]

/-- C3 witness: the contract's send-only test — two identical all-negative
lines against the capital-coin state attach three coins of 2000, sorted by
denom. -/
theorem complete_unrestricted_funds_witness :
    ∃ funds,
      (⟨⟨capitalCoinState, none⟩,
        [CosmosMsg.wasmExecute "raise_1"
          { exchanges := [sendExchange, sendExchange],
            toAddr := some "lp_side_account", memo := some "memo" }
          [⟨2000, "capital_coin"⟩, ⟨2000, "commitment_coin"⟩,
           ⟨2000, "investment_coin"⟩]]⟩ : ExecResult).msgs =
        [CosmosMsg.wasmExecute capitalCoinState.raise
          { exchanges := [sendExchange, sendExchange],
            toAddr := some "lp_side_account", memo := some "memo" } funds] ∧
      List.Pairwise (fun a b : Coin => a.denom ≤ b.denom) funds ∧
      (↑funds : Multiset Coin) =
        ↑(expectedBaseCoins capitalCoinState [sendExchange, sendExchange]) +
        ↑(expectedCapitalCoins capitalCoinState.like_capital_denoms
          [sendExchange, sendExchange]) :=
  complete_unrestricted_funds ⟨capitalCoinState, none⟩ "cosmos2contract" "lp"
    [sendExchange, sendExchange] (some "lp_side_account") (some "memo")
    ⟨⟨capitalCoinState, none⟩,
      [CosmosMsg.wasmExecute "raise_1"
        { exchanges := [sendExchange, sendExchange],
          toAddr := some "lp_side_account", memo := some "memo" }
        [⟨2000, "capital_coin"⟩, ⟨2000, "commitment_coin"⟩,
         ⟨2000, "investment_coin"⟩]]⟩
    rfl rfl

/-- C2 (amended): `CompleteAssetExchange` never consults the
identity-attribute registry — its outcome is independent of every
attribute assignment — and with a required capital attribute configured, a
successful completion emits one marker transfer of each negative capital
sum to the raise in place of plainly attached capital funds, whose attached
funds therefore carry only the investment/commitment legs; no rejection
based on the destination's attributes occurs. -/
theorem complete_restricted_no_attribute_query (storage : Storage)
    (env_contract sender : Addr) (exchanges : List AssetExchange)
    (toAddr : Option Addr) (memo : Option String) (attr : String)
    (hattr : storage.state.required_capital_attribute = some attr) :
    (∀ attrs₁ attrs₂ : Addr → List String,
      execute attrs₁ storage env_contract sender
        (.completeAssetExchange exchanges toAddr memo) =
      execute attrs₂ storage env_contract sender
        (.completeAssetExchange exchanges toAddr memo)) ∧
    (∀ res, executeCompleteAssetExchange storage env_contract sender exchanges
        toAddr memo = .ok res →
      ∃ markers funds,
        res.msgs = markers ++ [CosmosMsg.wasmExecute storage.state.raise
          { exchanges := exchanges, toAddr := toAddr, memo := memo } funds] ∧
        (↑markers : Multiset CosmosMsg) =
          ↑(expectedCapitalMarkers storage.state.like_capital_denoms exchanges
            storage.state.raise env_contract) ∧
        (↑funds : Multiset Coin) = ↑(expectedBaseCoins storage.state exchanges)) := by
  constructor
  · intro attrs₁ attrs₂
    rfl
  · intro res hok
    obtain ⟨auths, cap, hrm, hf, hres⟩ :=
      executeCompleteAssetExchange_ok_inv storage env_contract sender exchanges
        toAddr memo res hok
    subst hres
    refine ⟨(cap.filter (fun p => p.2 < 0)).map
        (fun p => CosmosMsg.markerTransfer { amount := p.2.natAbs, denom := p.1 }
          storage.state.raise env_contract),
      sortCoins (expectedBaseCoins storage.state exchanges), ?_, ?_, ?_⟩
    · show completeMsgs storage.state env_contract exchanges toAddr memo cap = _
      rw [completeMsgs_of_some storage.state env_contract exchanges toAddr memo cap
        attr hattr]
    · exact capMarkers_multiset storage.state.like_capital_denoms exchanges
        storage.state.raise env_contract cap hf
    · exact Multiset.coe_eq_coe.mpr (sortCoins_perm _)

/-- C2 counterexample: with the restricted-capital state and an attribute
registry in which no address holds any attribute, an lp completion moving
capital out is not rejected — it succeeds and emits the marker transfer —
so the claim that the registry is queried and the command rejected when
the destination lacks the attribute is false of the code. -/
theorem complete_restricted_counterexample :
    execute (fun _ => []) ⟨restrictedCoinState, none⟩ "cosmos2contract" "lp"
      (.completeAssetExchange
        [restrictedSendExchange] none none) =
      .ok ⟨⟨restrictedCoinState, none⟩,
        [CosmosMsg.markerTransfer ⟨1000, "restricted_capital_coin"⟩
          "raise_1" "cosmos2contract",
         CosmosMsg.wasmExecute "raise_1"
          { exchanges := [restrictedSendExchange],
            toAddr := none, memo := none } []]⟩ := rfl

/-- C2 witness: the amended theorem applied to the restricted send-only
test scenario. -/
theorem complete_restricted_no_attribute_query_witness :
    (∀ attrs₁ attrs₂ : Addr → List String,
      execute attrs₁ ⟨restrictedCoinState, none⟩ "cosmos2contract" "lp"
        (.completeAssetExchange
          [restrictedSendExchange] none none) =
      execute attrs₂ ⟨restrictedCoinState, none⟩ "cosmos2contract" "lp"
        (.completeAssetExchange
          [restrictedSendExchange] none none)) ∧
    (∀ res, executeCompleteAssetExchange ⟨restrictedCoinState, none⟩
        "cosmos2contract" "lp"
        [restrictedSendExchange] none none = .ok res →
      ∃ markers funds,
        res.msgs = markers ++ [CosmosMsg.wasmExecute restrictedCoinState.raise
          { exchanges := [restrictedSendExchange],
            toAddr := none, memo := none } funds] ∧
        (↑markers : Multiset CosmosMsg) =
          ↑(expectedCapitalMarkers restrictedCoinState.like_capital_denoms
            [restrictedSendExchange]
            restrictedCoinState.raise "cosmos2contract") ∧
        (↑funds : Multiset Coin) = ↑(expectedBaseCoins restrictedCoinState
          [restrictedSendExchange])) :=
  complete_restricted_no_attribute_query ⟨restrictedCoinState, none⟩
    "cosmos2contract" "lp"
    [restrictedSendExchange] none none "capital.test" rfl

/-- C9 (amended): a subscriber-initiated completion (lp distinct from the
admin) attempts the removal exactly as the admin path does — on success
the stored collection is `removeResult`: the first structurally-equal
authorization is erased when present (duplicates remain) and the
collection is unchanged when no match exists — but it is never rejected
for lack of a matching authorization: the only possible failure is the
unresolved-capital-denom error. -/
theorem complete_lp_removal (storage : Storage) (env_contract : Addr)
    (exchanges : List AssetExchange) (toAddr : Option Addr) (memo : Option String)
    (hne : storage.state.lp ≠ storage.state.admin) :
    (∀ err, executeCompleteAssetExchange storage env_contract storage.state.lp
        exchanges toAddr memo = .error err → err = "no capital denom") ∧
    (∀ res, executeCompleteAssetExchange storage env_contract storage.state.lp
        exchanges toAddr memo = .ok res →
      res.storage.state = storage.state ∧
      res.storage.authorizations =
        removeResult storage.authorizations (authTarget exchanges toAddr memo)) := by
  have hcae := executeCompleteAssetExchange_eq storage env_contract
    storage.state.lp exchanges toAddr memo (Or.inl rfl)
  have hreq : (decide (storage.state.lp = storage.state.admin)) = false := by
    simp [hne]
  rw [hreq] at hcae
  have hrm := remove_asset_exchange_authorization_eq storage.authorizations
    exchanges toAddr memo false
  have hrm' : remove_asset_exchange_authorization storage.authorizations exchanges
      toAddr memo false =
      .ok (removeResult storage.authorizations (authTarget exchanges toAddr memo)) := by
    by_cases hcnt : 0 < pendingCount storage.authorizations
        (authTarget exchanges toAddr memo)
    · rw [hrm, if_pos hcnt]
    · rw [hrm, if_neg hcnt]
      simp only [Bool.false_eq_true, if_false]
      congr 1
      rcases ha : storage.authorizations with _ | l
      · rfl
      · have hnm : authTarget exchanges toAddr memo ∉ l := by
          rw [ha] at hcnt
          intro hmem
          exact hcnt (by simpa [pendingCount] using List.count_pos_iff.mpr hmem)
        simp [removeResult, hnm]
  rw [hrm'] at hcae
  constructor
  · intro err herr
    rw [hcae] at herr
    rcases hf : total_capital_per_denom storage.state.like_capital_denoms
        exchanges [] with e | cap <;> rw [hf] at herr
    · rw [total_capital_per_denom_error _ _ _ _ hf] at herr
      exact (Except.error.inj herr).symm
    · exact absurd herr (by simp)
  · intro res hok
    rw [hcae] at hok
    rcases hf : total_capital_per_denom storage.state.like_capital_denoms
        exchanges [] with e | cap <;> rw [hf] at hok
    · exact absurd hok (by simp)
    · rw [← Except.ok.inj hok]
      exact ⟨rfl, rfl⟩

/-- C9 counterexample: with two accepted capital denoms and no pending
authorizations, a subscriber completion whose line omits the capital denom
does not succeed — it fails with the `no capital denom` error — so the
claim that a no-match subscriber completion always succeeds is false of
the code. -/
theorem complete_lp_no_match_counterexample :
    executeCompleteAssetExchange ⟨twoDenomState, none⟩ "cosmos2contract" "lp"
      [inferredCapitalExchange] none none = .error "no capital denom" := rfl

/-- C9 witness: against the capital-coin state holding one matching and one
distinct authorization, the lp completion consumes only the first matching
entry. -/
theorem complete_lp_removal_witness :
    (∀ err, executeCompleteAssetExchange
        ⟨capitalCoinState, some [⟨[acceptExchange], none, none⟩]⟩
        "cosmos2contract" "lp" [acceptExchange] none none = .error err →
      err = "no capital denom") ∧
    (∀ res, executeCompleteAssetExchange
        ⟨capitalCoinState, some [⟨[acceptExchange], none, none⟩]⟩
        "cosmos2contract" "lp" [acceptExchange] none none = .ok res →
      res.storage.state = capitalCoinState ∧
      res.storage.authorizations =
        removeResult (some [⟨[acceptExchange], none, none⟩])
          (authTarget [acceptExchange] none none)) :=
  complete_lp_removal ⟨capitalCoinState, some [⟨[acceptExchange], none, none⟩]⟩
    "cosmos2contract" [acceptExchange] none none (by decide)

/-- When removal is not required, the scan never fails and stores
`removeResult`. -/
theorem remove_not_required_ok (auths : Option (List AssetExchangeAuthorization))
    (exchanges : List AssetExchange) (toAddr : Option Addr) (memo : Option String) :
    remove_asset_exchange_authorization auths exchanges toAddr memo false =
      .ok (removeResult auths (authTarget exchanges toAddr memo)) := by
  have hrm := remove_asset_exchange_authorization_eq auths exchanges toAddr memo false
  by_cases hcnt : 0 < pendingCount auths (authTarget exchanges toAddr memo)
  · rw [hrm, if_pos hcnt]
  · rw [hrm, if_neg hcnt]
    simp only [Bool.false_eq_true, if_false]
    congr 1
    rcases ha : auths with _ | l
    · rfl
    · have hnm : authTarget exchanges toAddr memo ∉ l := by
        rw [ha] at hcnt
        intro hmem
        exact hcnt (by simpa [pendingCount] using List.count_pos_iff.mpr hmem)
      simp [removeResult, hnm]

/-- The authorize validation fails when some capital-bearing line names an
unsupported denom or omits the denom while several are accepted. -/
theorem validate_error_of_bad (like : List String) :
    ∀ exchanges : List AssetExchange,
    (∃ e ∈ exchanges, e.capital.isSome ∧
      ((e.capital_denom = none ∧ 1 < like.length) ∨
       (∃ dv, e.capital_denom = some dv ∧ dv ∉ like))) →
    ∃ err, validateAuthorizeExchanges like exchanges = .error err := by
  intro exchanges
  induction exchanges with
  | nil => rintro ⟨e, he, _⟩; cases he
  | cons x rest ih =>
    rintro ⟨e, he, hcap, hbad⟩
    rcases List.mem_cons.mp he with rfl | hrest
    · rcases hbad with ⟨hnone, hlen⟩ | ⟨dv, hdv, hnotin⟩
      · refine ⟨"specified capital denom required", ?_⟩
        rw [validateAuthorizeExchanges, if_pos hcap, hnone, if_pos hlen]
      · refine ⟨"unsupported capital denom", ?_⟩
        rw [validateAuthorizeExchanges, if_pos hcap, hdv]
        show (if dv ∉ like then Except.error "unsupported capital denom"
          else validateAuthorizeExchanges like rest) = _
        rw [if_pos hnotin]
    · by_cases hxc : x.capital.isSome
      · rcases hxd : x.capital_denom with _ | dv
        · by_cases hlen : 1 < like.length
          · exact ⟨"specified capital denom required",
              by rw [validateAuthorizeExchanges, if_pos hxc, hxd, if_pos hlen]⟩
          · obtain ⟨err, herr⟩ := ih ⟨e, hrest, hcap, hbad⟩
            exact ⟨err, by rw [validateAuthorizeExchanges, if_pos hxc, hxd,
              if_neg hlen]; exact herr⟩
        · by_cases hin : dv ∉ like
          · refine ⟨"unsupported capital denom", ?_⟩
            rw [validateAuthorizeExchanges, if_pos hxc, hxd]
            show (if dv ∉ like then Except.error "unsupported capital denom"
              else validateAuthorizeExchanges like rest) = _
            rw [if_pos hin]
          · obtain ⟨err, herr⟩ := ih ⟨e, hrest, hcap, hbad⟩
            refine ⟨err, ?_⟩
            rw [validateAuthorizeExchanges, if_pos hxc, hxd]
            show (if dv ∉ like then Except.error "unsupported capital denom"
              else validateAuthorizeExchanges like rest) = _
            rw [if_neg hin]
            exact herr
      · obtain ⟨err, herr⟩ := ih ⟨e, hrest, hcap, hbad⟩
        refine ⟨err, ?_⟩
        rw [validateAuthorizeExchanges, if_neg hxc]
        exact herr

/-- The authorize validation accepts every batch whose lines omit the denom
when at most one denom is accepted. -/
theorem validate_ok_of_omitted (like : List String) (hlen : ¬ 1 < like.length) :
    ∀ exchanges : List AssetExchange,
    (∀ e ∈ exchanges, e.capital_denom = none) →
    validateAuthorizeExchanges like exchanges = .ok () := by
  intro exchanges
  induction exchanges with
  | nil => intro _; rfl
  | cons x rest ih =>
    intro hall
    have hx := hall x (List.mem_cons_self x rest)
    have hrest := fun e he => hall e (List.mem_cons_of_mem x he)
    by_cases hxc : x.capital.isSome
    · rw [validateAuthorizeExchanges, if_pos hxc, hx, if_neg hlen]
      exact ih hrest
    · rw [validateAuthorizeExchanges, if_neg hxc]
      exact ih hrest

/-- The capital fold fails on a capital-bearing line omitting its denom
whenever the accepted set is not a singleton. -/
theorem tcpd_error_of_omitted (like : List String)
    (hlike : ∀ d, like ≠ [d]) :
    ∀ (exchanges : List AssetExchange) (e : AssetExchange), e ∈ exchanges →
    e.capital.isSome → e.capital_denom = none →
    ∀ acc, total_capital_per_denom like exchanges acc = .error "no capital denom" := by
  intro exchanges
  induction exchanges with
  | nil => rintro e he; cases he
  | cons x rest ih =>
    rintro e he hcap hnone acc
    rcases List.mem_cons.mp he with rfl | hrest
    · rcases hc : e.capital with _ | v
      · rw [hc] at hcap; cases hcap
      · rw [total_capital_per_denom, hc, hnone]
        rcases hl : like with _ | ⟨l1, lt⟩
        · rfl
        · rcases lt with _ | ⟨l2, lt2⟩
          · exact absurd hl (hlike l1)
          · rfl
    · rw [total_capital_per_denom]
      rcases hc : x.capital with _ | v
      · exact ih e hrest hcap hnone acc
      · rcases hd : x.capital_denom with _ | dv
        · rcases hl : like with _ | ⟨l1, lt⟩
          · rfl
          · rcases lt with _ | ⟨l2, lt2⟩
            · exact absurd hl (hlike l1)
            · rfl
        · exact ih e hrest hcap hnone (upsert acc dv v)

/-- With a single accepted denom the capital fold always succeeds. -/
theorem tcpd_ok_of_singleton (d : String) :
    ∀ (exchanges : List AssetExchange) (acc : List (String × Int)),
    ∃ m, total_capital_per_denom [d] exchanges acc = .ok m := by
  intro exchanges
  induction exchanges with
  | nil => intro acc; exact ⟨acc, rfl⟩
  | cons x rest ih =>
    intro acc
    rcases hc : x.capital with _ | v
    · obtain ⟨m, hm⟩ := ih acc
      exact ⟨m, by rw [total_capital_per_denom, hc]; exact hm⟩
    · rcases hd : x.capital_denom with _ | dv
      · obtain ⟨m, hm⟩ := ih (upsert acc d v)
        exact ⟨m, by rw [total_capital_per_denom, hc, hd]; exact hm⟩
      · obtain ⟨m, hm⟩ := ih (upsert acc dv v)
        exact ⟨m, by rw [total_capital_per_denom, hc, hd]; exact hm⟩

/-- C5 (amended): a capital-touching command omitting the capital denom
fails when two or more denoms are accepted and resolves the single
accepted denom when exactly one exists (Authorize succeeds outright,
Withdrawal behaves exactly as if the denom had been given explicitly, and
a subscriber Complete succeeds); a capital denom explicitly given outside
the accepted set is rejected as unsupported by AuthorizeAssetExchange and
IssueWithdrawal — CompleteAssetExchange performs no such check (see the
counterexample). -/
theorem capital_denom_resolution :
    (∀ (storage : Storage) (exchanges : List AssetExchange) (toAddr : Option Addr)
        (memo : Option String) (e : AssetExchange), e ∈ exchanges →
      e.capital.isSome → e.capital_denom = none →
      1 < storage.state.like_capital_denoms.length →
      ∃ err, executeAuthorizeAssetExchange storage storage.state.lp exchanges
        toAddr memo = .error err) ∧
    (∀ (storage : Storage) (env_contract sender : Addr)
        (exchanges : List AssetExchange) (toAddr : Option Addr)
        (memo : Option String) (e : AssetExchange),
      (sender = storage.state.lp ∨ sender = storage.state.admin) →
      e ∈ exchanges → e.capital.isSome → e.capital_denom = none →
      1 < storage.state.like_capital_denoms.length →
      ∃ err, executeCompleteAssetExchange storage env_contract sender exchanges
        toAddr memo = .error err) ∧
    (∀ (attrs : Addr → List String) (storage : Storage) (env_contract toA : Addr)
        (amount : Nat),
      1 < storage.state.like_capital_denoms.length →
      executeIssueWithdrawal attrs storage env_contract storage.state.lp toA
        amount none = .error "no capital denom") ∧
    (∀ (storage : Storage) (exchanges : List AssetExchange) (toAddr : Option Addr)
        (memo : Option String) (d : String),
      storage.state.like_capital_denoms = [d] →
      (∀ e ∈ exchanges, e.capital_denom = none) →
      executeAuthorizeAssetExchange storage storage.state.lp exchanges toAddr memo =
        .ok ⟨⟨storage.state, some (storage.authorizations.getD [] ++
          [authTarget exchanges toAddr memo])⟩, []⟩) ∧
    (∀ (storage : Storage) (env_contract : Addr) (exchanges : List AssetExchange)
        (toAddr : Option Addr) (memo : Option String) (d : String),
      storage.state.like_capital_denoms = [d] →
      storage.state.lp ≠ storage.state.admin →
      ∃ res, executeCompleteAssetExchange storage env_contract storage.state.lp
        exchanges toAddr memo = .ok res) ∧
    (∀ (attrs : Addr → List String) (storage : Storage) (env_contract toA : Addr)
        (amount : Nat) (d : String),
      storage.state.like_capital_denoms = [d] →
      executeIssueWithdrawal attrs storage env_contract storage.state.lp toA
        amount none =
      executeIssueWithdrawal attrs storage env_contract storage.state.lp toA
        amount (some d)) ∧
    (∀ (storage : Storage) (exchanges : List AssetExchange) (toAddr : Option Addr)
        (memo : Option String) (e : AssetExchange) (dv : String), e ∈ exchanges →
      e.capital.isSome → e.capital_denom = some dv →
      dv ∉ storage.state.like_capital_denoms →
      ∃ err, executeAuthorizeAssetExchange storage storage.state.lp exchanges
        toAddr memo = .error err) ∧
    (∀ (attrs : Addr → List String) (storage : Storage) (env_contract toA : Addr)
        (amount : Nat) (dv : String),
      dv ∉ storage.state.like_capital_denoms →
      executeIssueWithdrawal attrs storage env_contract storage.state.lp toA
        amount (some dv) = .error "unsupported capital denom") := by
  refine ⟨?_, ?_, ?_, ?_, ?_, ?_, ?_, ?_⟩
  · intro storage exchanges toAddr memo e he hcap hnone hlen
    obtain ⟨err, hv⟩ := validate_error_of_bad storage.state.like_capital_denoms
      exchanges ⟨e, he, hcap, Or.inl ⟨hnone, hlen⟩⟩
    refine ⟨err, ?_⟩
    rw [executeAuthorizeAssetExchange, if_neg (by simp), hv]
  · intro storage env_contract sender exchanges toAddr memo e hs he hcap hnone hlen
    have hnl : ∀ d, storage.state.like_capital_denoms ≠ [d] := by
      intro d hd
      rw [hd] at hlen
      exact absurd hlen (by simp)
    have hf := tcpd_error_of_omitted storage.state.like_capital_denoms hnl
      exchanges e he hcap hnone []
    have hcae := executeCompleteAssetExchange_eq storage env_contract sender
      exchanges toAddr memo hs
    rcases hr : remove_asset_exchange_authorization storage.authorizations
        exchanges toAddr memo (sender = storage.state.admin) with err | auths <;>
      rw [hr] at hcae
    · exact ⟨err, hcae⟩
    · rw [hf] at hcae
      exact ⟨"no capital denom", hcae⟩
  · intro attrs storage env_contract toA amount hlen
    have hres : resolveWithdrawDenom storage.state.like_capital_denoms none =
        .error "no capital denom" := by
      rcases hl : storage.state.like_capital_denoms with _ | ⟨l1, lt⟩
      · rfl
      · rcases lt with _ | ⟨l2, lt2⟩
        · rw [hl] at hlen; exact absurd hlen (by simp)
        · rfl
    rw [executeIssueWithdrawal, if_neg (by simp), hres]
  · intro storage exchanges toAddr memo d hd hall
    have hlen : ¬ 1 < storage.state.like_capital_denoms.length := by
      rw [hd]; simp
    have hv := validate_ok_of_omitted storage.state.like_capital_denoms hlen
      exchanges hall
    rw [executeAuthorizeAssetExchange, if_neg (by simp), hv]
    rfl
  · intro storage env_contract exchanges toAddr memo d hd hne
    have hcae := executeCompleteAssetExchange_eq storage env_contract
      storage.state.lp exchanges toAddr memo (Or.inl rfl)
    have hreq : (decide (storage.state.lp = storage.state.admin)) = false := by
      simp [hne]
    rw [hreq, remove_not_required_ok] at hcae
    obtain ⟨m, hm⟩ := tcpd_ok_of_singleton d exchanges []
    rw [hd] at hcae
    rw [hm] at hcae
    exact ⟨_, hcae⟩
  · intro attrs storage env_contract toA amount d hd
    have h1 : resolveWithdrawDenom storage.state.like_capital_denoms none = .ok d := by
      rw [hd]; rfl
    have h2 : resolveWithdrawDenom storage.state.like_capital_denoms (some d) =
        .ok d := by
      rw [hd]; simp [resolveWithdrawDenom]
    simp only [executeIssueWithdrawal, h1, h2]
  · intro storage exchanges toAddr memo e dv he hcap hdv hnotin
    obtain ⟨err, hv⟩ := validate_error_of_bad storage.state.like_capital_denoms
      exchanges ⟨e, he, hcap, Or.inr ⟨dv, hdv, hnotin⟩⟩
    refine ⟨err, ?_⟩
    rw [executeAuthorizeAssetExchange, if_neg (by simp), hv]
  · intro attrs storage env_contract toA amount dv hnotin
    rw [executeIssueWithdrawal, if_neg (by simp)]
    have hres : resolveWithdrawDenom storage.state.like_capital_denoms (some dv) =
        .error "unsupported capital denom" := by
      rw [resolveWithdrawDenom]
      show (if dv ∈ storage.state.like_capital_denoms then Except.ok dv
        else Except.error "unsupported capital denom") = _
      rw [if_neg hnotin]
    rw [hres]

/-- C5 counterexample: `CompleteAssetExchange` accepts an exchange line
whose explicit capital denom (`bogus_coin`) is outside the accepted set
(`capital_coin`) — the command succeeds rather than being rejected as
unsupported, falsifying the claim for the Complete command. -/
theorem complete_unsupported_denom_counterexample :
    executeCompleteAssetExchange ⟨capitalCoinState, none⟩ "cosmos2contract" "lp"
      [unsupportedCapitalExchange] none none =
      .ok ⟨⟨capitalCoinState, none⟩,
        [CosmosMsg.wasmExecute "raise_1"
          { exchanges := [unsupportedCapitalExchange], toAddr := none,
            memo := none } []]⟩ := rfl

/-- C5 witness: the ambiguous-denom and unsupported-denom rejections of the
contract's tests. -/
theorem capital_denom_resolution_witness :
    (∃ err, executeAuthorizeAssetExchange ⟨twoDenomState, none⟩ "lp"
      [inferredCapitalExchange] none none = .error err) ∧
    executeIssueWithdrawal (fun _ => []) ⟨twoDenomState, none⟩ "cosmos2contract"
      "lp" "lp_side_account" 10000 none = .error "no capital denom" ∧
    executeIssueWithdrawal (fun _ => []) ⟨capitalCoinState, none⟩ "cosmos2contract"
      "lp" "lp_side_account" 10000 (some "bogus_coin") =
      .error "unsupported capital denom" :=
  ⟨capital_denom_resolution.1 ⟨twoDenomState, none⟩ [inferredCapitalExchange]
      none none inferredCapitalExchange (by simp) rfl rfl (by decide),
   capital_denom_resolution.2.2.1 (fun _ => []) ⟨twoDenomState, none⟩
      "cosmos2contract" "lp_side_account" 10000 (by decide),
   capital_denom_resolution.2.2.2.2.2.2.2 (fun _ => []) ⟨capitalCoinState, none⟩
      "cosmos2contract" "lp_side_account" 10000 "bogus_coin" (by decide)⟩

/-- C6: a subscriber withdrawal whose capital denom resolves to `d` is
gated by the required capital attribute: with an attribute configured, the
command fails with the missing-attribute error when the destination lacks
it and otherwise succeeds with the marker (restricted-instrument) transfer
as its single outbound message — never a bank send; with no attribute
configured the single outbound message is the plain bank send. -/
theorem withdrawal_attribute_gate (attrs : Addr → List String) (storage : Storage)
    (env_contract toA : Addr) (amount : Nat) (capital_denom : Option String)
    (d : String)
    (hres : resolveWithdrawDenom storage.state.like_capital_denoms capital_denom
      = .ok d) :
    (∀ attr, storage.state.required_capital_attribute = some attr →
      ((attr ∉ attrs toA →
        executeIssueWithdrawal attrs storage env_contract storage.state.lp toA
          amount capital_denom =
          .error (toA ++ " does not have required attribute of " ++ attr)) ∧
       (attr ∈ attrs toA →
        executeIssueWithdrawal attrs storage env_contract storage.state.lp toA
          amount capital_denom =
          .ok ⟨storage, [CosmosMsg.markerTransfer { amount := amount, denom := d }
            toA env_contract]⟩))) ∧
    (storage.state.required_capital_attribute = none →
      executeIssueWithdrawal attrs storage env_contract storage.state.lp toA
        amount capital_denom =
        .ok ⟨storage, [CosmosMsg.bankSend toA
          [{ amount := amount, denom := d }]]⟩) := by
  constructor
  · intro attr hattr
    constructor
    · intro hmiss
      rw [executeIssueWithdrawal, if_neg (by simp), hres]
      show (match storage.state.required_capital_attribute with
        | none => _ | some required_capital_attribute => _) = _
      rw [hattr]
      have hany : ¬ (attrs toA).any (fun a => a = attr) = true := by
        simp only [List.any_eq_true, decide_eq_true_eq]
        rintro ⟨x, hx, rfl⟩
        exact hmiss hx
      simp only [if_pos hany]
    · intro hhave
      rw [executeIssueWithdrawal, if_neg (by simp), hres]
      show (match storage.state.required_capital_attribute with
        | none => _ | some required_capital_attribute => _) = _
      rw [hattr]
      have hany : ((attrs toA).any (fun a => a = attr)) = true := by
        simp only [List.any_eq_true, decide_eq_true_eq]
        exact ⟨attr, hhave, rfl⟩
      simp only [hany]
      simp
  · intro hattr
    rw [executeIssueWithdrawal, if_neg (by simp), hres]
    show (match storage.state.required_capital_attribute with
      | none => _ | some required_capital_attribute => _) = _
    rw [hattr]

/-- C6 witness: the contract's restricted-withdrawal tests — the
destination holding `capital.test` receives a marker transfer of 10000
restricted capital, while the same withdrawal errors when nobody holds the
attribute, and the unrestricted state pays by bank send. -/
theorem withdrawal_attribute_gate_witness :
    (executeIssueWithdrawal
        (fun a => if a = "lp_side_account" then ["capital.test"] else [])
        ⟨restrictedCoinState, none⟩ "cosmos2contract" "lp" "lp_side_account"
        10000 none =
      .ok ⟨⟨restrictedCoinState, none⟩,
        [CosmosMsg.markerTransfer ⟨10000, "restricted_capital_coin"⟩
          "lp_side_account" "cosmos2contract"]⟩) ∧
    (executeIssueWithdrawal (fun _ => []) ⟨restrictedCoinState, none⟩
        "cosmos2contract" "lp" "lp_side_account" 10000 none =
      .error ("lp_side_account" ++ " does not have required attribute of "
        ++ "capital.test")) ∧
    (executeIssueWithdrawal (fun _ => []) ⟨capitalCoinState, none⟩
        "cosmos2contract" "lp" "lp_side_account" 10000 none =
      .ok ⟨⟨capitalCoinState, none⟩,
        [CosmosMsg.bankSend "lp_side_account" [⟨10000, "capital_coin"⟩]]⟩) :=
  ⟨((withdrawal_attribute_gate
      (fun a => if a = "lp_side_account" then ["capital.test"] else [])
      ⟨restrictedCoinState, none⟩ "cosmos2contract" "lp_side_account" 10000 none
      "restricted_capital_coin" rfl).1 "capital.test" rfl).2 (by decide),
   ((withdrawal_attribute_gate (fun _ => []) ⟨restrictedCoinState, none⟩
      "cosmos2contract" "lp_side_account" 10000 none
      "restricted_capital_coin" rfl).1 "capital.test" rfl).1 (by decide),
   (withdrawal_attribute_gate (fun _ => []) ⟨capitalCoinState, none⟩
      "cosmos2contract" "lp_side_account" 10000 none
      "capital_coin" rfl).2 rfl⟩
